import Mathlib

/-!
Verification development for the TAU Commander software installation manager
(`packages/tau/cf/software/installation.py`).

The Python code is shallowly embedded: the filesystem is a record of boolean
observations (`os.path.isdir`, `os.path.exists`, `os.access(..., X_OK)`,
`util.file_accessible`), external effects (download, archive inspection,
extraction, subprocess execution) are supplied by an environment record of
functions, and methods that raise exceptions return `Except`.  Recursive
traversal of the dependency tree (`Installation.verify`,
`AutotoolsInstallation.install`) is made total with an explicit fuel
parameter; running out of fuel yields the distinguished error
`Err.outOfFuel`, so any theorem conditioned on a non-fuel outcome speaks
about the Python control flow itself.  Side effects that the claims talk
about (builds, staging, deletions, verification passes) are recorded in an
event trace.
-/

set_option autoImplicit false

namespace Tau

/-- Model of `os.path.join` for the concrete paths used here (no trailing slashes). -/
def pjoin (a b : String) : String := a ++ "/" ++ b

/-- Model of `os.path.basename`: the final component of a slash-separated path
(the characters after the last slash). -/
def basename (p : String) : String :=
  String.mk ((p.data.reverse.takeWhile (fun c => !(c == '/'))).reverse)

/-- String prefix test over the character lists (the kernel-reducible
counterpart of `String.isPrefixOf`). -/
def strPre (a b : String) : Bool := List.isPrefixOf a.data b.data

/-- ASCII lowercasing (`str.lower()`). -/
def lowerStr (s : String) : String := String.mk (s.data.map Char.toLower)

/-- Python truthiness of an optional string (`if self.src:`):
`None` and the empty string are falsy. -/
def truthy : Option String → Bool
  | none => false
  | some s => !s.isEmpty

/-- Observations of the filesystem used by `installation.py`. -/
structure FS where
  isDir : String → Bool
  pathExists : String → Bool
  isExec : String → Bool
  accessible : String → Bool

/-- Effect of creating a plain file at `p` (download / copy target). -/
def FS.addFile (fs : FS) (p : String) : FS :=
  FS.mk fs.isDir (fun q => q == p || fs.pathExists q) fs.isExec fs.accessible

/-- Effect of `util.mkdirp p` / creating a directory at `p`. -/
def FS.addDir (fs : FS) (p : String) : FS :=
  FS.mk (fun q => q == p || fs.isDir q) (fun q => q == p || fs.pathExists q)
    fs.isExec fs.accessible

/-- Is `q` the path `root` itself or underneath it? -/
def underPath (root q : String) : Bool := q == root || strPre (root ++ "/") q

/-- Effect of `shutil.rmtree(root, ignore_errors=True)` / `util.rmtree`. -/
def FS.removeTree (fs : FS) (root : String) : FS :=
  FS.mk (fun q => !underPath root q && fs.isDir q)
    (fun q => !underPath root q && fs.pathExists q)
    (fun q => !underPath root q && fs.isExec q)
    (fun q => !underPath root q && fs.accessible q)

/-- A storage level: filesystem root plus writability flag. -/
structure Storage where
  root : String
  writable : Bool
deriving DecidableEq

/-- Errors raised by the installation manager.  `outOfFuel` is the artifact
of the fuel-bounded embedding and corresponds to no Python behaviour. -/
inductive Err where
  | outOfFuel
  | spe (msg : String) (hints : List String)
  | cfg (msg : String) (hints : List String)
deriving DecidableEq

/-- Trace events for the effects the claims talk about. -/
inductive Ev where
  | verifyEv (name : String)
  | cleanPrefixEv (path : String)
  | srcDeleteEv (path : String)
  | mkdirpEv (path : String)
  | mkdtempEv (path : String)
  | downloadEv (src dst : String)
  | copyEv (src dst : String)
  | readArchiveEv (path : String) (ok : Bool)
  | extractEv (archive dst : String)
  | runEv (cmd : List String) (cwd : String) (ok : Bool)
  | symlinkEv (target link : String)
deriving DecidableEq

/-- Is the event a verification pass (no state change)? -/
def Ev.isVerify : Ev → Bool
  | .verifyEv _ => true
  | _ => false

/-- One software installation record.  The fields mirror the attributes set
by `Installation.__init__` / `_change_install_prefix`: the directories
`bin`, `lib`, `include` are derived from the installation directory.
`deps` is `self.dependencies` (a name-indexed mapping iterated in a fixed
order, modelled as a list). -/
inductive Inst where
  | mk (name title : String) (src : Option String) (installDir : String)
      (verifyCommands verifyLibraries verifyHeaders : List String)
      (deps : List Inst)

def Inst.name : Inst → String | .mk n _ _ _ _ _ _ _ => n
def Inst.title : Inst → String | .mk _ t _ _ _ _ _ _ => t
def Inst.src : Inst → Option String | .mk _ _ s _ _ _ _ _ => s
def Inst.installDir : Inst → String | .mk _ _ _ p _ _ _ _ => p
def Inst.verifyCommands : Inst → List String | .mk _ _ _ _ c _ _ _ => c
def Inst.verifyLibraries : Inst → List String | .mk _ _ _ _ _ l _ _ => l
def Inst.verifyHeaders : Inst → List String | .mk _ _ _ _ _ _ h _ => h
def Inst.deps : Inst → List Inst | .mk _ _ _ _ _ _ _ d => d

/-- Model of `self.bin_path` (set by `_change_install_prefix`). -/
def Inst.binPath (i : Inst) : String := pjoin (Inst.installDir i) "bin"
/-- Model of `self.lib_path`. -/
def Inst.libPath (i : Inst) : String := pjoin (Inst.installDir i) "lib"
/-- Model of `self.include_path`. -/
def Inst.includePath (i : Inst) : String := pjoin (Inst.installDir i) "include"
/-- The lock-marker file created at the installation root. -/
def Inst.lockPath (i : Inst) : String := pjoin (Inst.installDir i) ".tau_lock"

/-- Model of `_change_install_prefix`: repoint the record at a new installation
directory (the derived paths follow because they are computed fields). -/
def Inst.withInstallDir : Inst → String → Inst
  | .mk n t s _ c l h d, p => .mk n t s p c l h d

/-- Short-circuiting iteration, as the `for pkg in deps: pkg.verify()`
loops: stop at the first exception. -/
def exceptFold (f : Inst → Except Err Unit) : List Inst → Except Err Unit
  | [] => .ok ()
  | d :: ds =>
    match f d with
    | .error e => .error e
    | .ok _ => exceptFold f ds

/-- The command loop of `Installation.verify`: each command must exist under
`bin` and be executable. -/
def checkCommands (fs : FS) (binp : String) : List String → Except Err Unit
  | [] => .ok ()
  | c :: cs =>
    let p := pjoin binp c
    if !fs.pathExists p then .error (.spe (p ++ " is missing") [])
    else if !fs.isExec p then .error (.spe (p ++ " exists but is not executable") [])
    else checkCommands fs binp cs

/-- The library loop of `Installation.verify`: look under `lib`, then under
`lib64` (`self.lib_path + '64'`), before failing. -/
def checkLibraries (fs : FS) (libp : String) : List String → Except Err Unit
  | [] => .ok ()
  | l :: ls =>
    if fs.accessible (pjoin libp l) then checkLibraries fs libp ls
    else if fs.accessible (pjoin (libp ++ "64") l) then checkLibraries fs libp ls
    else .error (.spe (pjoin (libp ++ "64") l ++ " is not accessible") [])

/-- The header loop of `Installation.verify`. -/
def checkHeaders (fs : FS) (incp : String) : List String → Except Err Unit
  | [] => .ok ()
  | h :: hs =>
    if fs.accessible (pjoin incp h) then checkHeaders fs incp hs
    else .error (.spe (pjoin incp h ++ " is not accessible") [])

/-- Model of `Installation.verify`: verify every dependency first, then the existence
of the installation directory, then commands, libraries, headers.  Fuel
bounds the dependency recursion. -/
def verify : Nat → Inst → FS → Except Err Unit
  | 0, _, _ => .error .outOfFuel
  | n + 1, i, fs =>
    match exceptFold (fun d => verify n d fs) (Inst.deps i) with
    | .error e => .error e
    | .ok _ =>
      if !fs.pathExists (Inst.installDir i) then
        .error (.spe (Inst.installDir i ++ " does not exist") [])
      else
        match checkCommands fs (Inst.binPath i) (Inst.verifyCommands i) with
        | .error e => .error e
        | .ok _ =>
          match checkLibraries fs (Inst.libPath i) (Inst.verifyLibraries i) with
          | .error e => .error e
          | .ok _ => checkHeaders fs (Inst.includePath i) (Inst.verifyHeaders i)

/-- Boolean form of a successful verification. -/
def verifyOkB (n : Nat) (i : Inst) (fs : FS) : Bool :=
  match verify n i fs with
  | .ok _ => true
  | .error _ => false

/-- The ambient world of the installation manager: the storage hierarchy
(`ORDERED_LEVELS`, modelled from the spec as ordered lowest to highest
precedence), the CPU count, and the outcomes and filesystem effects of the
external primitives (`util.mkdtemp`, `util.download`,
`util.archive_toplevel`, `util.extract_archive`,
`util.create_subprocess`). -/
structure Env where
  levels : List Storage
  cpuCount : Nat
  mkdtempTry : FS → Option (String × FS)
  downloadOk : String → String → FS → Bool
  topdirOf : String → FS → Option String
  extractTo : String → String → FS → Option FS
  runCmd : List String → String → FS → Bool × FS

/-- Modelled from the spec (the module `tau.cf.storage.levels` is not under
`src/`): `highest_writable_storage` returns the highest-precedence level
whose writability flag is true, with `levels` ordered lowest to highest
precedence; none signals the fatal no-writable-storage error. -/
def highestWritableStorage (levels : List Storage) : Option Storage :=
  levels.reverse.find? (fun s => Storage.writable s)

/-- The shared archive-cache directory of a storage level
(`os.path.join(storage.prefix, "src")`). -/
def srcDirOf (s : Storage) : String := pjoin (Storage.root s) "src"

/-- The archive-search loop of `_prepare_src` with `reuse=True`: iterate the
storage levels highest precedence first (`reversed(ORDERED_LEVELS)`); the
first level is allowed to set a missing build directory; on the first level
whose cache holds the archive, copy it to the build directory when the two
differ and stop.  Returns the final build directory, the last value of the
loop variable `archive` (`none` only when there are no levels at all, where
Python would hit an unbound local), the filesystem and the events. -/
def searchArchiveLoop (archName : String) :
    List Storage → Option String → FS → (Option String × Option String × FS × List Ev)
  | [], bp, fs => (bp, none, fs, [])
  | s :: rest, bp, fs =>
    let ap := srcDirOf s
    let bp1 := bp.getD ap
    let archive := pjoin ap archName
    if fs.pathExists archive then
      if bp1 == ap then (some bp1, some archive, fs, [])
      else (some bp1, some archive, fs.addFile (pjoin bp1 archName),
            [Ev.copyEv archive (pjoin bp1 archName)])
    else
      match searchArchiveLoop archName rest (some bp1) fs with
      | (bpf, arcf, fsf, tr) => (bpf, some (arcf.getD archive), fsf, tr)

/-- The tail of `_prepare_src` after the top-level directory name is known:
reuse a staged directory `bp/topdir` when allowed, otherwise remove the
stale directory and extract the archive (`util.extract_archive` returns the
staged tree `bp/topdir`). -/
def stageExtract (env : Env) (reuse : Bool) (bp archive topdir : String) (fs : FS) :
    Except Err (String × FS) × List Ev :=
  let sp := pjoin bp topdir
  if reuse && fs.isDir sp then (.ok (sp, fs), [])
  else
    let fs1 := fs.removeTree sp
    match env.extractTo archive bp fs1 with
    | none =>
      (.error (.cfg ("Cannot extract source archive " ++ archive)
          ["Check that the file or directory is accessable"]),
        [Ev.srcDeleteEv sp, Ev.extractEv archive bp])
    | some fs2 => (.ok (sp, fs2), [Ev.srcDeleteEv sp, Ev.extractEv archive bp])

/-- The cache-mirroring step of `_prepare_src` with `reuse=False`: when the
build directory differs from the cache directory `ap` of the highest
writable level, create `ap` and copy the downloaded archive there. -/
def mirrorStep (archive ap apArch : String) (same : Bool) (fs1 : FS) : FS × List Ev :=
  if same then (fs1, [])
  else ((fs1.addDir ap).addFile apArch, [Ev.mkdirpEv ap, Ev.copyEv archive apArch])

/-- Model of `_prepare_src` with `reuse=False`: download a fresh archive next to the
build directory, mirror it into the cache of the highest writable level when
the two differ, then read the top level and extract.  An unreadable archive
is final here (`ConfigurationError`). -/
def prepareSrcNoReuse (env : Env) (i : Inst) (src : String) (bp0 : Option String)
    (fs : FS) : Except Err (String × FS) × List Ev :=
  match highestWritableStorage env.levels with
  | none => (.error (.cfg "No writable storage level" []), [])
  | some hw =>
    match env.downloadOk src (pjoin (bp0.getD (srcDirOf hw)) (basename src)) fs with
    | false =>
      (.error (.cfg ("Cannot acquire source archive " ++ src)
          ["Check that the file or directory is accessable"]),
        [Ev.downloadEv src (pjoin (bp0.getD (srcDirOf hw)) (basename src))])
    | true =>
      match mirrorStep (pjoin (bp0.getD (srcDirOf hw)) (basename src)) (srcDirOf hw)
          (pjoin (srcDirOf hw) (basename src)) (bp0.getD (srcDirOf hw) == srcDirOf hw)
          (fs.addFile (pjoin (bp0.getD (srcDirOf hw)) (basename src))) with
      | (fs2, trm) =>
        match env.topdirOf (pjoin (bp0.getD (srcDirOf hw)) (basename src)) fs2 with
        | none =>
          (.error (.cfg ("Cannot read " ++ Inst.title i ++ " archive file "
              ++ pjoin (bp0.getD (srcDirOf hw)) (basename src)) []),
            Ev.downloadEv src (pjoin (bp0.getD (srcDirOf hw)) (basename src)) ::
              trm ++ [Ev.readArchiveEv (pjoin (bp0.getD (srcDirOf hw)) (basename src)) false])
        | some topdir =>
          match stageExtract env false (bp0.getD (srcDirOf hw))
              (pjoin (bp0.getD (srcDirOf hw)) (basename src)) topdir fs2 with
          | (r, tr) =>
            (r, Ev.downloadEv src (pjoin (bp0.getD (srcDirOf hw)) (basename src)) ::
              trm ++ [Ev.readArchiveEv (pjoin (bp0.getD (srcDirOf hw)) (basename src)) true] ++ tr)

/-- Model of `_prepare_src` with `reuse=True`: search the caches; if the archive at
hand cannot be read, retry the whole acquisition once with `reuse=False`
(fresh download); otherwise stage, reusing an existing source tree. -/
def prepareSrcReuse (env : Env) (i : Inst) (src : String) (bp0 : Option String)
    (fs : FS) : Except Err (String × FS) × List Ev :=
  let archName := basename src
  match searchArchiveLoop archName env.levels.reverse bp0 fs with
  | (_, none, _, tr) =>
    -- no storage levels at all: Python would raise an unbound-local error
    (.error (.cfg "no storage levels" []), tr)
  | (bpf, some archive, fs1, tr) =>
    let bp := bpf.getD (srcDirOf ⟨"", false⟩)
    match env.topdirOf archive fs1 with
    | none =>
      match prepareSrcNoReuse env i src (some bp) fs1 with
      | (r, tr2) => (r, tr ++ [Ev.readArchiveEv archive false] ++ tr2)
    | some topdir =>
      match stageExtract env true bp archive topdir fs1 with
      | (r, tr2) => (r, tr ++ [Ev.readArchiveEv archive true] ++ tr2)

/-- Model of `_prepare_src`: raise when no source specifier is given (Python
truthiness: `None` or empty), else dispatch on `reuse`. -/
def prepareSrc (env : Env) (i : Inst) (bp0 : Option String) (reuse : Bool)
    (fs : FS) : Except Err (String × FS) × List Ev :=
  match Inst.src i with
  | none => (.error (.cfg ("No source code provided for " ++ Inst.title i) []), [])
  | some s =>
    if s.isEmpty then (.error (.cfg ("No source code provided for " ++ Inst.title i) []), [])
    else if reuse then prepareSrcReuse env i s bp0 fs
    else prepareSrcNoReuse env i s bp0 fs

/-- Model of `parallel_make_flags`: `-j` with the requested process count; `None` or
`0` (Python falsiness) defaults to `max(1, cpu_count - 1)`. -/
def parallelMakeFlags (nprocs : Option Nat) (cpuCount : Nat) : List String :=
  let n :=
    match nprocs with
    | none => max 1 (cpuCount - 1)
    | some k => if k == 0 then max 1 (cpuCount - 1) else k
  ["-j", toString n]

/-- Model of `AutotoolsInstallation.configure`: `./configure --prefix=<installDir>`
run in the staged source directory; non-zero exit raises. -/
def configureStep (env : Env) (i : Inst) (flags : List String) (sp : String)
    (fs : FS) : Except Err FS × List Ev :=
  let cmd := ["./configure"] ++ flags ++ ["--prefix=" ++ Inst.installDir i]
  match env.runCmd cmd sp fs with
  | (true, _) => (.error (.spe (Inst.title i ++ " configure failed") []), [Ev.runEv cmd sp false])
  | (false, fs1) => (.ok fs1, [Ev.runEv cmd sp true])

/-- Model of `AutotoolsInstallation.make`: try the parallel build; on failure retry
once with the identical command minus the parallelism flags; a second
failure raises. -/
def makeStep (env : Env) (i : Inst) (flags : List String) (parallel : Bool)
    (sp : String) (fs : FS) : Except Err FS × List Ev :=
  let parFlags := if parallel then parallelMakeFlags none env.cpuCount else []
  let cmd1 := ["make"] ++ parFlags ++ flags
  match env.runCmd cmd1 sp fs with
  | (false, fs1) => (.ok fs1, [Ev.runEv cmd1 sp true])
  | (true, fs1) =>
    let cmd2 := ["make"] ++ flags
    match env.runCmd cmd2 sp fs1 with
    | (false, fs2) => (.ok fs2, [Ev.runEv cmd1 sp false, Ev.runEv cmd2 sp true])
    | (true, _) =>
      (.error (.spe (Inst.title i ++ " compilation failed") []),
        [Ev.runEv cmd1 sp false, Ev.runEv cmd2 sp false])

/-- Model of `AutotoolsInstallation.make_install`: run `make install`; on success,
if `lib64` exists and `lib` does not, symlink `lib` to `lib64`. -/
def makeInstallStep (env : Env) (i : Inst) (flags : List String) (parallel : Bool)
    (sp : String) (fs : FS) : Except Err FS × List Ev :=
  let flags1 := flags ++ (if parallel then parallelMakeFlags none env.cpuCount else [])
  let cmd := ["make", "install"] ++ flags1
  match env.runCmd cmd sp fs with
  | (true, _) => (.error (.spe (Inst.title i ++ " installation failed") []), [Ev.runEv cmd sp false])
  | (false, fs1) =>
    if fs1.isDir (Inst.libPath i ++ "64") && !fs1.isDir (Inst.libPath i) then
      (.ok (fs1.addDir (Inst.libPath i)),
        [Ev.runEv cmd sp true, Ev.symlinkEv (Inst.libPath i ++ "64") (Inst.libPath i)])
    else (.ok fs1, [Ev.runEv cmd sp true])

/-- The prefix-cleaning step of `install`: recursively delete a leftover
installation directory. -/
def cleanSt (i : Inst) (fs : FS) : FS × List Ev :=
  if fs.isDir (Inst.installDir i) then
    (fs.removeTree (Inst.installDir i), [Ev.cleanPrefixEv (Inst.installDir i)])
  else (fs, [])

/-- The build-directory choice of `install`: `util.mkdtemp(dir="/dev/shm")`,
falling back to no explicit build directory on `IOError`. -/
def tmpSt (env : Env) (fs : FS) : Option String × FS × List Ev :=
  match env.mkdtempTry fs with
  | some (d, fs1) => (some d, fs1, [Ev.mkdtempEv d])
  | none => (none, fs, [])

/-- The configure / make / make-install sequence of `install` on a staged
source tree `sp`, followed by deletion of the staged tree and the final
verification (`return self.verify()`).  `vfuel` is the fuel of that final
`self.verify()`. -/
def buildTail (vfuel : Nat) (env : Env) (i : Inst) (sp : String) (fs2 : FS) :
    Except Err FS × List Ev :=
  match configureStep env i [] sp fs2 with
  | (.error e, trc) => (.error e, trc)
  | (.ok fs3, trc) =>
    match makeStep env i [] true sp fs3 with
    | (.error e, trm) => (.error e, trc ++ trm)
    | (.ok fs4, trm) =>
      match makeInstallStep env i [] false sp fs4 with
      | (.error e, trmi) => (.error e, trc ++ trm ++ trmi)
      | (.ok fs5, trmi) =>
        match verify vfuel i (fs5.removeTree sp) with
        | .ok _ =>
          (.ok (fs5.removeTree sp),
            trc ++ trm ++ trmi ++ [Ev.srcDeleteEv sp, Ev.verifyEv (Inst.name i)])
        | .error e =>
          (.error e,
            trc ++ trm ++ trmi ++ [Ev.srcDeleteEv sp, Ev.verifyEv (Inst.name i)])

/-- The build section of `AutotoolsInstallation.install`: clean a leftover
installation directory, pick a build directory in shared memory when
possible, stage the source, then run the build tail. -/
def buildPhase (vfuel : Nat) (env : Env) (i : Inst) (fs : FS) :
    Except Err FS × List Ev :=
  match prepareSrc env i (tmpSt env (cleanSt i fs).1).1 true
      (tmpSt env (cleanSt i fs).1).2.1 with
  | (.error e, tr) => (.error e, (cleanSt i fs).2 ++ (tmpSt env (cleanSt i fs).1).2.2 ++ tr)
  | (.ok (sp, fs2), tr) =>
    match buildTail vfuel env i sp fs2 with
    | (r, trb) => (r, (cleanSt i fs).2 ++ (tmpSt env (cleanSt i fs).1).2.2 ++ tr ++ trb)

/-- Short-circuiting state-threading fold for dependency installs
(`for pkg in self.dependencies.itervalues(): pkg.install(force_reinstall)`). -/
def installResFold (f : Inst → FS → Except Err FS × List Ev) :
    List Inst → FS → Except Err FS × List Ev
  | [], fs => (.ok fs, [])
  | d :: ds, fs =>
    match f d fs with
    | (.error e, tr) => (.error e, tr)
    | (.ok fs1, tr1) =>
      match installResFold f ds fs1 with
      | (r, tr2) => (r, tr1 ++ tr2)

/-- The message text of an error (used when an exception is re-raised with
added context). -/
def errMsg : Err → String
  | .outOfFuel => "out of fuel"
  | .spe m _ => m
  | .cfg m _ => m

/-- The branch structure of `install` after the dependency loop: for a
package without a source specifier, verify — raising a fatal error with a
remediation hint on failure; note the Python code does not return on a
successful verification there and falls through to the build section —
for a package with a source and `force_reinstall` false, a successful
verification returns early; otherwise build. -/
def installOwn (vfuel : Nat) (env : Env) (force : Bool) (i : Inst) (fs1 : FS) :
    Except Err FS × List Ev :=
  if !truthy (Inst.src i) then
    match verify vfuel i fs1 with
    | .error e =>
      (.error (.spe ("Invalid " ++ Inst.title i ++ " installation at "
          ++ Inst.installDir i ++ ": " ++ errMsg e)
        ["Specify source code path or URL to enable broken package reinstallation."]),
        [Ev.verifyEv (Inst.name i)])
    | .ok _ =>
      match buildPhase vfuel env i fs1 with
      | (r, tr2) => (r, Ev.verifyEv (Inst.name i) :: tr2)
  else if !force then
    match verify vfuel i fs1 with
    | .ok _ => (.ok fs1, [Ev.verifyEv (Inst.name i)])
    | .error _ => buildPhase vfuel env i fs1
  else buildPhase vfuel env i fs1

/-- Model of `AutotoolsInstallation.install`: install every dependency first, then
run the package's own verify-or-build logic (`installOwn`). -/
def installOne : Nat → Env → Bool → Inst → FS → Except Err FS × List Ev
  | 0, _, _, _, _ => (.error .outOfFuel, [])
  | n + 1, env, force, i, fs =>
    match installResFold (fun d fs1 => installOne n env force d fs1) (Inst.deps i) fs with
    | (.error e, tr) => (.error e, tr)
    | (.ok fs1, tr1) =>
      match installOwn (n + 1) env force i fs1 with
      | (r, tr2) => (r, tr1 ++ tr2)

/-- The dependency loop of `install` as a named function. -/
def installList (n : Nat) (env : Env) (force : Bool) (l : List Inst) (fs : FS) :
    Except Err FS × List Ev :=
  installResFold (fun d fs1 => installOne n env force d fs1) l fs

/-- Does every package of the dependency tree carry a truthy source
specifier (up to the given depth)? -/
def srcAllTruthy : Nat → Inst → Bool
  | 0, _ => false
  | n + 1, i => truthy (Inst.src i) && (Inst.deps i).all (fun d => srcAllTruthy n d)

/-- Model of `__init__`: resolution of the downloaded source
(`self.src = src if src.lower() != 'download' else self._lookup_target_os_list(repos)`). -/
def resolveSrc (src repoLookup : String) : String :=
  if lowerStr src == "download" then repoLookup else src

/-- The candidate installation directory inside one storage level:
`os.path.join(storage.prefix, prefix, name, uid)`. -/
def candidatePath (storageRoot pfx name uid : String) : String :=
  pjoin (pjoin (pjoin storageRoot pfx) name) uid

/-- The construction-time search of `__init__` for a source specifier that
is not an existing directory: scan `reversed(ORDERED_LEVELS)` — i.e. from
highest to lowest precedence with `levels` ordered lowest to highest, as
modelled from the spec — repoint the record at each candidate directory and
keep the first one that verifies; when none does, place the installation at
the highest writable level (`none` when no level is writable, the fatal
configuration error). -/
def resolveInstallDir (vfuel : Nat) (fs : FS) (levels : List Storage) (i : Inst)
    (pfx uid : String) : Option String :=
  match levels.reverse.find?
      (fun s => verifyOkB vfuel (Inst.withInstallDir i
        (candidatePath (Storage.root s) pfx (Inst.name i) uid)) fs) with
  | some s => some (candidatePath (Storage.root s) pfx (Inst.name i) uid)
  | none =>
    (highestWritableStorage levels).map
      (fun hw => candidatePath (Storage.root hw) pfx (Inst.name i) uid)

/-- The same search as the claim words it — scanning the storage levels
from lowest to highest priority — for comparison with the code-derived
`resolveInstallDir`. -/
def resolveInstallDirClaim (vfuel : Nat) (fs : FS) (levels : List Storage) (i : Inst)
    (pfx uid : String) : Option String :=
  match levels.find?
      (fun s => verifyOkB vfuel (Inst.withInstallDir i
        (candidatePath (Storage.root s) pfx (Inst.name i) uid)) fs) with
  | some s => some (candidatePath (Storage.root s) pfx (Inst.name i) uid)
  | none =>
    (highestWritableStorage levels).map
      (fun hw => candidatePath (Storage.root hw) pfx (Inst.name i) uid)

/-- The whole prefix computation of `__init__` for a non-directory source:
resolve the `download` keyword, hash the source specifier
(`hashlib.md5(src).hexdigest()`, the hash function abstract), and search
the storage hierarchy. -/
def initInstallDir (vfuel : Nat) (fs : FS) (levels : List Storage)
    (md5hex : String → String) (i : Inst) (pfx srcRaw repoLookup : String) :
    Option String :=
  resolveInstallDir vfuel fs levels i pfx (md5hex (resolveSrc srcRaw repoLookup))

/-- World state for the `with`-statement lock protocol: the filesystem plus
which lock files are currently held. -/
structure LockSt where
  fs : FS
  locked : String → Bool

/-- Model of `__enter__`: when a source specifier is present, create the install
directory and acquire the lock file; otherwise do nothing. -/
def enterCtx (i : Inst) (st : LockSt) : LockSt :=
  if truthy (Inst.src i) then
    LockSt.mk (st.fs.addDir (Inst.installDir i))
      (fun p => p == Inst.lockPath i || st.locked p)
  else st

/-- Model of `lockfile.LockFile.release`: raises `NotLocked` (modelled as the error
value) when the lock is not held. -/
def releaseLock (lockP : String) (st : LockSt) : Except Unit LockSt :=
  if st.locked lockP then
    .ok (LockSt.mk st.fs (fun p => !(p == lockP) && st.locked p))
  else .error ()

/-- Model of `__exit__`: release the lock, silently tolerating `NotLocked`, and
return `False` (never suppress an exception). -/
def exitCtx (i : Inst) (st : LockSt) : LockSt × Bool :=
  match releaseLock (Inst.lockPath i) st with
  | .ok st1 => (st1, false)
  | .error _ => (st, false)

/-- Environment-variable mappings (`dict` of strings). -/
abbrev EnvMap := List (String × String)

/-- Model of `env[k]` lookup. -/
def EnvMap.get? (m : EnvMap) (k : String) : Option String :=
  (List.find? (fun p => p.1 == k) m).map (fun p => p.2)

/-- Model of `env[k] = v` assignment (cons-shadowing representation; the mapping is
only ever observed through `EnvMap.get?`, under which this is the Python
dict update). -/
def EnvMap.set (m : EnvMap) (k v : String) : EnvMap := (k, v) :: m

/-- Prepend `path` to the search-path variable `k` with `os.pathsep`,
or set it outright when the variable is absent (the `KeyError` branch). -/
def prependVar (m : EnvMap) (k path : String) : EnvMap :=
  match EnvMap.get? m k with
  | some old => EnvMap.set m k (path ++ ":" ++ old)
  | none => EnvMap.set m k path

/-- Model of `Installation.compiletime_config`: copy the inputs (an empty or missing
mapping defaults to a copy of `os.environ`), prepend `bin` to `PATH` when
that directory exists, and return the options dedup-ed through a `set`
(`list(set(opts))`, with `setEnum` the enumeration order of the Python
set). -/
def compiletimeConfig (setEnum : List String → List String) (osEnviron : EnvMap)
    (fs : FS) (i : Inst) (opts : List String) (env : EnvMap) :
    List String × EnvMap :=
  let env0 := if env.isEmpty then osEnviron else env
  let env1 := if fs.isDir (Inst.binPath i) then prependVar env0 "PATH" (Inst.binPath i) else env0
  (setEnum opts, env1)

/-- Model of `Installation.runtime_config`: as `compiletime_config`, additionally
prepending `lib` to the platform library-path variable (`DYLD_LIBRARY_PATH`
on darwin, else `LD_LIBRARY_PATH`) when the `lib` directory exists. -/
def runtimeConfig (setEnum : List String → List String) (osEnviron : EnvMap)
    (darwin : Bool) (fs : FS) (i : Inst) (opts : List String) (env : EnvMap) :
    List String × EnvMap :=
  let env0 := if env.isEmpty then osEnviron else env
  let env1 := if fs.isDir (Inst.binPath i) then prependVar env0 "PATH" (Inst.binPath i) else env0
  let libVar := if darwin then "DYLD_LIBRARY_PATH" else "LD_LIBRARY_PATH"
  let env2 := if fs.isDir (Inst.libPath i) then prependVar env1 libVar (Inst.libPath i) else env1
  (setEnum opts, env2)

/-- The contract Python guarantees for `list(set(l))`: a duplicate-free
enumeration of exactly the members of `l`, in an unspecified order. -/
def PySetEnum (setEnum : List String → List String) : Prop :=
  ∀ l : List String, (setEnum l).Nodup ∧ ∀ x, x ∈ setEnum l ↔ x ∈ l

/-! ### Basic lemmas about the verification helpers -/

theorem except_unit_error_iff (x : Except Err Unit) :
    (∃ e, x = .error e) ↔ ¬(x = .ok ()) := by
  cases x with
  | error e => simp
  | ok u => cases u; simp

theorem exceptFold_ok_iff (f : Inst → Except Err Unit) (l : List Inst) :
    exceptFold f l = .ok () ↔ ∀ d ∈ l, f d = .ok () := by
  induction l with
  | nil => simp [exceptFold]
  | cons d ds ih =>
    cases h : f d with
    | error e => simp [exceptFold, h]
    | ok u => cases u; simp [exceptFold, h, ih]

theorem exceptFold_error (f : Inst → Except Err Unit) (l : List Inst) (e : Err)
    (h : exceptFold f l = .error e) : ∃ d ∈ l, f d = .error e := by
  induction l with
  | nil => simp [exceptFold] at h
  | cons d ds ih =>
    cases hd : f d with
    | error e1 =>
      rw [exceptFold, hd] at h
      exact ⟨d, by simp, by simpa using h.symm ▸ hd⟩
    | ok u =>
      cases u
      rw [exceptFold, hd] at h
      obtain ⟨x, hx, hfx⟩ := ih h
      exact ⟨x, by simp [hx], hfx⟩

theorem checkCommands_ok_iff (fs : FS) (binp : String) (l : List String) :
    checkCommands fs binp l = .ok () ↔
      ∀ c ∈ l, fs.pathExists (pjoin binp c) = true ∧ fs.isExec (pjoin binp c) = true := by
  induction l with
  | nil => simp [checkCommands]
  | cons c cs ih =>
    cases hE : fs.pathExists (pjoin binp c) <;> cases hX : fs.isExec (pjoin binp c) <;>
      simp [checkCommands, hE, hX, ih]

theorem checkLibraries_ok_iff (fs : FS) (libp : String) (l : List String) :
    checkLibraries fs libp l = .ok () ↔
      ∀ x ∈ l, fs.accessible (pjoin libp x) = true ∨
        fs.accessible (pjoin (libp ++ "64") x) = true := by
  induction l with
  | nil => simp [checkLibraries]
  | cons x xs ih =>
    cases hA : fs.accessible (pjoin libp x) <;>
      cases hB : fs.accessible (pjoin (libp ++ "64") x) <;>
      simp [checkLibraries, hA, hB, ih]

theorem checkHeaders_ok_iff (fs : FS) (incp : String) (l : List String) :
    checkHeaders fs incp l = .ok () ↔ ∀ x ∈ l, fs.accessible (pjoin incp x) = true := by
  induction l with
  | nil => simp [checkHeaders]
  | cons x xs ih =>
    cases hA : fs.accessible (pjoin incp x) <;> simp [checkHeaders, hA, ih]

/-- Model of `Installation.verify` succeeds exactly when every dependency verifies,
the installation directory exists, and every required command, library and
header is found. -/
theorem verify_succ_ok_iff (n : Nat) (i : Inst) (fs : FS) :
    verify (n + 1) i fs = .ok () ↔
      (∀ d ∈ Inst.deps i, verify n d fs = .ok ()) ∧
      fs.pathExists (Inst.installDir i) = true ∧
      (∀ c ∈ Inst.verifyCommands i,
        fs.pathExists (pjoin (Inst.binPath i) c) = true ∧
        fs.isExec (pjoin (Inst.binPath i) c) = true) ∧
      (∀ x ∈ Inst.verifyLibraries i,
        fs.accessible (pjoin (Inst.libPath i) x) = true ∨
        fs.accessible (pjoin (Inst.libPath i ++ "64") x) = true) ∧
      (∀ x ∈ Inst.verifyHeaders i,
        fs.accessible (pjoin (Inst.includePath i) x) = true) := by
  rw [verify]
  cases hD : exceptFold (fun d => verify n d fs) (Inst.deps i) with
  | error e =>
    have : ¬ ∀ d ∈ Inst.deps i, verify n d fs = .ok () := by
      intro hall
      rw [(exceptFold_ok_iff _ _).2 hall] at hD
      exact Except.noConfusion hD
    simp [this]
  | ok u =>
    cases u
    have hall := (exceptFold_ok_iff (fun d => verify n d fs) (Inst.deps i)).1 hD
    cases hP : fs.pathExists (Inst.installDir i) with
    | false => simp [hP, hall]
    | true =>
      cases hC : checkCommands fs (Inst.binPath i) (Inst.verifyCommands i) with
      | error e =>
        have : ¬ ∀ c ∈ Inst.verifyCommands i,
            fs.pathExists (pjoin (Inst.binPath i) c) = true ∧
            fs.isExec (pjoin (Inst.binPath i) c) = true := by
          intro hcs
          rw [(checkCommands_ok_iff _ _ _).2 hcs] at hC
          exact Except.noConfusion hC
        simp [hP, hall, this]
      | ok u =>
        cases u
        cases hL : checkLibraries fs (Inst.libPath i) (Inst.verifyLibraries i) with
        | error e =>
          have : ¬ ∀ x ∈ Inst.verifyLibraries i,
              fs.accessible (pjoin (Inst.libPath i) x) = true ∨
              fs.accessible (pjoin (Inst.libPath i ++ "64") x) = true := by
            intro hls
            rw [(checkLibraries_ok_iff _ _ _).2 hls] at hL
            exact Except.noConfusion hL
          simp [hP, hall, (checkCommands_ok_iff _ _ _).1 hC, this]
        | ok u =>
          cases u
          simp only [hP, Bool.not_true, Bool.false_eq_true, if_false,
            checkHeaders_ok_iff, true_and]
          exact ⟨fun h => ⟨hall, (checkCommands_ok_iff _ _ _).1 hC,
              (checkLibraries_ok_iff _ _ _).1 hL, h⟩,
            fun h => h.2.2.2⟩

/-! ### C2: when verification fails -/

/-- C2 (amended): `verify()` raises `SoftwarePackageError` if and only if
the install-prefix directory does not exist, or at least one required
command is missing or non-executable under `prefix/bin`, or one required
library is inaccessible under both `prefix/lib` and `prefix/lib64`, or one
required header is unreadable under `prefix/include`, or any declared
dependency fails verification; in particular a prefix containing the
library only under `lib64` still verifies. -/
theorem c2_verify_fails_iff (n : Nat) (i : Inst) (fs : FS) :
    (∃ e, verify (n + 1) i fs = .error e) ↔
      ((∃ d ∈ Inst.deps i, ∃ e, verify n d fs = .error e) ∨
       fs.pathExists (Inst.installDir i) = false ∨
       (∃ c ∈ Inst.verifyCommands i,
         fs.pathExists (pjoin (Inst.binPath i) c) = false ∨
         fs.isExec (pjoin (Inst.binPath i) c) = false) ∨
       (∃ x ∈ Inst.verifyLibraries i,
         fs.accessible (pjoin (Inst.libPath i) x) = false ∧
         fs.accessible (pjoin (Inst.libPath i ++ "64") x) = false) ∨
       (∃ x ∈ Inst.verifyHeaders i,
         fs.accessible (pjoin (Inst.includePath i) x) = false)) := by
  rw [except_unit_error_iff, verify_succ_ok_iff]
  simp only [not_and_or, not_forall, not_or, Bool.not_eq_true,
    ← except_unit_error_iff, exists_prop]

/-- The installation and filesystem refuting the claim `C2` as stated:
no requirements at all, no dependencies, and a missing install prefix. -/
def iC2 : Inst := .mk "e" "E" (some "http://x/e.tgz") "/opt/e" [] [] [] []

/-- The empty filesystem. -/
def fsNone : FS := FS.mk (fun _ => false) (fun _ => false) (fun _ => false) (fun _ => false)

/-- C2 counterexample: with no required commands, libraries, headers and no
dependencies but a non-existent install prefix, `verify` raises although
none of the failure conditions enumerated by the claim holds — the claim
misses the install-prefix existence check. -/
theorem c2_counterexample :
    (∃ e, verify 1 iC2 fsNone = .error e) ∧
      ¬((∃ d ∈ Inst.deps iC2, ∃ e, verify 0 d fsNone = .error e) ∨
        (∃ c ∈ Inst.verifyCommands iC2,
          fsNone.pathExists (pjoin (Inst.binPath iC2) c) = false ∨
          fsNone.isExec (pjoin (Inst.binPath iC2) c) = false) ∨
        (∃ x ∈ Inst.verifyLibraries iC2,
          fsNone.accessible (pjoin (Inst.libPath iC2) x) = false ∧
          fsNone.accessible (pjoin (Inst.libPath iC2 ++ "64") x) = false) ∨
        (∃ x ∈ Inst.verifyHeaders iC2,
          fsNone.accessible (pjoin (Inst.includePath iC2) x) = false)) := by
  refine ⟨⟨Err.spe ("/opt/e" ++ " does not exist") [], rfl⟩, ?_⟩
  simp [iC2, Inst.deps, Inst.verifyCommands, Inst.verifyLibraries, Inst.verifyHeaders]

/-- An installation requiring one library. -/
def iC2w : Inst := .mk "f" "F" (some "http://x/f.tgz") "/opt/f" [] ["foo.a"] [] []

/-- A filesystem holding the library only under `lib64`. -/
def fsLib64 : FS :=
  FS.mk (fun _ => false) (fun q => q == "/opt/f") (fun _ => false)
    (fun q => q == "/opt/f/lib64/foo.a")

/-- Witness for `c2_verify_fails_iff` at a concrete instance: a prefix
holding the required library only under `lib64` verifies, and the iff
evaluates accordingly. -/
theorem c2_witness :
    (¬ ∃ e, verify 1 iC2w fsLib64 = .error e) ∧
      verify 1 iC2w fsLib64 = .ok () := by
  constructor
  · rw [c2_verify_fails_iff 0 iC2w fsLib64]
    simp [iC2w, fsLib64, Inst.deps, Inst.verifyCommands, Inst.verifyLibraries,
      Inst.verifyHeaders, Inst.installDir, Inst.libPath, pjoin]
  · rfl

/-! ### Structural lemmas about `install` -/

theorem buildTail_ok_verify (vfuel : Nat) (env : Env) (i : Inst) (sp : String)
    (fs fs2 : FS) (tr : List Ev) (h : buildTail vfuel env i sp fs = (.ok fs2, tr)) :
    verify vfuel i fs2 = .ok () := by
  unfold buildTail at h
  repeat' split at h
  all_goals simp_all

theorem buildPhase_ok_verify (vfuel : Nat) (env : Env) (i : Inst) (fs fs2 : FS)
    (tr : List Ev) (h : buildPhase vfuel env i fs = (.ok fs2, tr)) :
    verify vfuel i fs2 = .ok () := by
  unfold buildPhase at h
  split at h
  · exact absurd h (by simp)
  · rename_i sp fs3 tr1 heq
    split at h
    rename_i r trb hb
    have hr : r = .ok fs2 := by
      have := congrArg Prod.fst h
      simpa using this
    exact buildTail_ok_verify vfuel env i sp fs3 fs2 trb (by rw [hb, hr])

theorem installOwn_ok_verify (vfuel : Nat) (env : Env) (force : Bool) (i : Inst)
    (fs fs2 : FS) (tr : List Ev)
    (h : installOwn vfuel env force i fs = (.ok fs2, tr)) :
    verify vfuel i fs2 = .ok () := by
  unfold installOwn at h
  split at h
  · -- no source specifier
    split at h
    · exact absurd h (by simp)
    · -- fall-through to the build section
      rcases hb : buildPhase vfuel env i fs with ⟨r, tr2⟩
      rw [hb] at h
      have hr : r = .ok fs2 := by
        have := congrArg Prod.fst h
        simpa using this
      exact buildPhase_ok_verify vfuel env i fs fs2 tr2 (by rw [hb, hr])
  · split at h
    · -- early return on successful verification
      split at h
      · rename_i hv
        have hfs : fs = fs2 := by
          have := congrArg Prod.fst h
          simpa using this
        rw [← hfs]
        assumption
      · exact buildPhase_ok_verify vfuel env i fs fs2 tr h
    · exact buildPhase_ok_verify vfuel env i fs fs2 tr h

theorem installOne_ok_verify (n : Nat) (env : Env) (force : Bool) (i : Inst)
    (fs fs2 : FS) (tr : List Ev)
    (h : installOne n env force i fs = (.ok fs2, tr)) :
    verify n i fs2 = .ok () := by
  cases n with
  | zero => simp [installOne] at h
  | succ m =>
    rw [installOne] at h
    rcases hf : installResFold (fun d fs1 => installOne m env force d fs1) (Inst.deps i) fs
      with ⟨r1, tr1⟩
    rw [hf] at h
    cases r1 with
    | error e => exact absurd h (by simp)
    | ok fs1 =>
      dsimp only at h
      rcases ho : installOwn (m + 1) env force i fs1 with ⟨r2, tr2⟩
      rw [ho] at h
      have hr : r2 = .ok fs2 := by
        have := congrArg Prod.fst h
        simpa using this
      exact installOwn_ok_verify (m + 1) env force i fs1 fs2 tr2 (by rw [ho, hr])

theorem prepareSrc_ok_truthy (env : Env) (i : Inst) (bp0 : Option String)
    (reuse : Bool) (fs : FS) (p : String × FS) (tr : List Ev)
    (h : prepareSrc env i bp0 reuse fs = (.ok p, tr)) :
    truthy (Inst.src i) = true := by
  unfold prepareSrc at h
  cases hs : Inst.src i with
  | none => rw [hs] at h; exact absurd h (by simp)
  | some s =>
    rw [hs] at h
    dsimp only at h
    cases he : s.isEmpty with
    | true => rw [he] at h; exact absurd h (by simp)
    | false => simp [truthy, he]

theorem buildPhase_ok_truthy (vfuel : Nat) (env : Env) (i : Inst) (fs fs2 : FS)
    (tr : List Ev) (h : buildPhase vfuel env i fs = (.ok fs2, tr)) :
    truthy (Inst.src i) = true := by
  unfold buildPhase at h
  split at h
  · exact absurd h (by simp)
  · rename_i sp fs3 tr1 heq
    exact prepareSrc_ok_truthy env i _ true _ (sp, fs3) tr1 heq

theorem installOwn_ok_truthy (vfuel : Nat) (env : Env) (force : Bool) (i : Inst)
    (fs fs2 : FS) (tr : List Ev)
    (h : installOwn vfuel env force i fs = (.ok fs2, tr)) :
    truthy (Inst.src i) = true := by
  unfold installOwn at h
  split at h
  · split at h
    · exact absurd h (by simp)
    · rcases hb : buildPhase vfuel env i fs with ⟨r, tr2⟩
      rw [hb] at h
      have hr : r = .ok fs2 := by
        have := congrArg Prod.fst h
        simpa using this
      exact buildPhase_ok_truthy vfuel env i fs fs2 tr2 (by rw [hb, hr])
  · rename_i hs
    simpa using hs

theorem installResFold_ok_mem (f : Inst → FS → Except Err FS × List Ev)
    (l : List Inst) (fs fs2 : FS) (tr : List Ev)
    (h : installResFold f l fs = (.ok fs2, tr)) :
    ∀ d ∈ l, ∃ fsa fsb trd, f d fsa = (.ok fsb, trd) := by
  induction l generalizing fs tr with
  | nil => simp
  | cons d ds ih =>
    intro x hx
    rw [installResFold] at h
    rcases hd : f d fs with ⟨rd, trd⟩
    rw [hd] at h
    cases rd with
    | error e => exact absurd h (by simp)
    | ok fsd =>
      dsimp only at h
      rcases hr : installResFold f ds fsd with ⟨rr, trr⟩
      rw [hr] at h
      have hrr : rr = .ok fs2 := by
        have := congrArg Prod.fst h
        simpa using this
      rcases List.mem_cons.1 hx with hxd | hxs
      · exact hxd ▸ ⟨fs, fsd, trd, hd⟩
      · exact ih fsd trr (by rw [hr, hrr]) x hxs

theorem installOne_ok_srcAllTruthy (n : Nat) (env : Env) (force : Bool) (i : Inst)
    (fs fs2 : FS) (tr : List Ev)
    (h : installOne n env force i fs = (.ok fs2, tr)) :
    srcAllTruthy n i = true := by
  induction n generalizing i fs fs2 tr with
  | zero => simp [installOne] at h
  | succ m ih =>
    rw [installOne] at h
    rcases hf : installResFold (fun d fs1 => installOne m env force d fs1) (Inst.deps i) fs
      with ⟨r1, tr1⟩
    rw [hf] at h
    cases r1 with
    | error e => exact absurd h (by simp)
    | ok fs1 =>
      dsimp only at h
      rcases ho : installOwn (m + 1) env force i fs1 with ⟨r2, tr2⟩
      rw [ho] at h
      have hr : r2 = .ok fs2 := by
        have := congrArg Prod.fst h
        simpa using this
      rw [srcAllTruthy, Bool.and_eq_true]
      constructor
      · exact installOwn_ok_truthy (m + 1) env force i fs1 fs2 tr2 (by rw [ho, hr])
      · rw [List.all_eq_true]
        intro d hd
        obtain ⟨fsa, fsb, trd, hfd⟩ :=
          installResFold_ok_mem _ (Inst.deps i) fs fs1 tr1 (by rw [hf]) d hd
        exact ih d fsa fsb trd hfd

/-- When every dependency verifies and carries a source, the dependency
loop of `install` is a pure sequence of verification passes: the state is
unchanged and only verify events are traced. -/
theorem installResFold_verify_only (f : Inst → FS → Except Err FS × List Ev)
    (l : List Inst) (fs : FS)
    (hall : ∀ d ∈ l, ∃ trd, f d fs = (.ok fs, trd) ∧ trd.all Ev.isVerify = true) :
    ∃ tr, installResFold f l fs = (.ok fs, tr) ∧ tr.all Ev.isVerify = true := by
  induction l with
  | nil => exact ⟨[], rfl, rfl⟩
  | cons d ds ih =>
    obtain ⟨trd, hd, hdv⟩ := hall d (by simp)
    obtain ⟨trr, hr, hrv⟩ := ih (fun x hx => hall x (by simp [hx]))
    refine ⟨trd ++ trr, ?_, ?_⟩
    · rw [installResFold, hd]
      dsimp only
      rw [hr]
    · simp only [List.all_append, hdv, hrv, Bool.and_self]

/-- A package that verifies, and whose whole dependency tree carries source
specifiers, makes `install(force_reinstall=False)` a verification-only
no-op. -/
theorem verify_ok_installOne (n : Nat) (env : Env) (i : Inst) (fs : FS)
    (hv : verify n i fs = .ok ()) (ht : srcAllTruthy n i = true) :
    ∃ tr, installOne n env false i fs = (.ok fs, tr) ∧ tr.all Ev.isVerify = true := by
  induction n generalizing i with
  | zero => rw [verify] at hv; exact absurd hv (by simp)
  | succ m ih =>
    rw [srcAllTruthy, Bool.and_eq_true, List.all_eq_true] at ht
    obtain ⟨hts, htd⟩ := ht
    have hdv : ∀ d ∈ Inst.deps i, verify m d fs = .ok () := by
      rw [verify] at hv
      intro d hd
      cases hD : exceptFold (fun d => verify m d fs) (Inst.deps i) with
      | error e => rw [hD] at hv; exact absurd hv (by simp)
      | ok u => exact (exceptFold_ok_iff _ _).1 (by rw [hD]) d hd
    obtain ⟨tr1, hf, hfv⟩ := installResFold_verify_only
      (fun d fs1 => installOne m env false d fs1) (Inst.deps i) fs
      (fun d hd => ih d (hdv d hd) (htd d hd))
    have ho : installOwn (m + 1) env false i fs = (.ok fs, [Ev.verifyEv (Inst.name i)]) := by
      unfold installOwn
      rw [hts]
      simp only [Bool.not_true, Bool.false_eq_true, if_false, Bool.not_false, if_true, hv]
    refine ⟨tr1 ++ [Ev.verifyEv (Inst.name i)], ?_, ?_⟩
    · rw [installOne, hf]
      dsimp only
      rw [ho]
    · rw [List.all_append, hfv]
      simp [Ev.isVerify]

/-! ### C3: idempotence of `install` -/

/-- C3: `install(force_reinstall=False)` is idempotent: when a source
specifier exists and the first call completes (a build included)
successfully, a second call on the resulting state verifies, succeeds,
returns the same state, and performs no build, staging or deletion — its
whole trace is verification passes, so the build happens only once across
the two calls. -/
theorem c3_install_idempotent (k : Nat) (env : Env) (i : Inst) (fs fs2 : FS)
    (tr1 : List Ev) (hsrc : truthy (Inst.src i) = true)
    (h1 : installOne k env false i fs = (.ok fs2, tr1))
    (hbuild : ∃ c cwd, Ev.runEv c cwd true ∈ tr1) :
    ∃ tr2, installOne k env false i fs2 = (.ok fs2, tr2) ∧ tr2.all Ev.isVerify = true :=
  verify_ok_installOne k env i fs2
    (installOne_ok_verify k env false i fs fs2 tr1 h1)
    (installOne_ok_srcAllTruthy k env false i fs fs2 tr1 h1)

/-- A concrete world in which a fresh install builds: one writable storage
level, everything succeeds, and `make install` creates the install
directory. -/
def wInst : Inst := .mk "pkg" "Pkg" (some "http://x/pkg.tgz") "/usr/tau/pkg/H" [] [] [] []

/-- The empty filesystem under which `wInst` is not yet installed. -/
def wFs0 : FS := FS.mk (fun _ => false) (fun _ => false) (fun _ => false) (fun _ => false)

/-- The environment driving the concrete build. -/
def wEnv : Env :=
  Env.mk [⟨"/usr", true⟩] 4
    (fun _ => none)
    (fun _ _ _ => true)
    (fun a fs => if fs.pathExists a then some "pkg-1.0" else none)
    (fun _ bp fs => some (fs.addDir (pjoin bp "pkg-1.0")))
    (fun cmd _ fs =>
      if cmd == ["make", "install"] then (false, fs.addDir "/usr/tau/pkg/H")
      else (false, fs))

/-- The filesystem produced by the first (building) call. -/
def wFs1 : FS :=
  match (installOne 3 wEnv false wInst wFs0).1 with
  | .ok f => f
  | .error _ => wFs0

theorem c3_witness :
    truthy (Inst.src wInst) = true ∧
    ∃ fs2 tr1 tr2, installOne 3 wEnv false wInst wFs0 = (.ok fs2, tr1) ∧
      (∃ c cwd, Ev.runEv c cwd true ∈ tr1) ∧
      installOne 3 wEnv false wInst fs2 = (.ok fs2, tr2) ∧
      tr2.all Ev.isVerify = true := by
  have h1 : installOne 3 wEnv false wInst wFs0 =
      (.ok wFs1, (installOne 3 wEnv false wInst wFs0).2) := rfl
  have hmem : Ev.runEv ["make", "install"] "/usr/src/pkg-1.0" true ∈
      (installOne 3 wEnv false wInst wFs0).2 := by decide
  obtain ⟨tr2, h2, hall⟩ :=
    c3_install_idempotent 3 wEnv wInst wFs0 wFs1 (installOne 3 wEnv false wInst wFs0).2
      rfl h1 ⟨_, _, hmem⟩
  exact ⟨rfl, wFs1, (installOne 3 wEnv false wInst wFs0).2, tr2, h1, ⟨_, _, hmem⟩, h2, hall⟩

/-! ### C7: pre-installed packages (source specifier null) -/

/-- A pre-installed, externally managed package: no source specifier. -/
def bInst : Inst := .mk "pre" "Pre" none "/opt/pre" [] [] [] []

/-- A filesystem on which `/opt/pre` exists, so `bInst` verifies. -/
def bFs : FS :=
  FS.mk (fun q => q == "/opt/pre") (fun q => q == "/opt/pre") (fun _ => false) (fun _ => false)

/-- C7 evidence: for the pre-installed package `bInst`, whose verification
succeeds, `install` does not return after verifying: it falls through to
the build section, deletes the verified install prefix
(`Ev.cleanPrefixEv`), and raises `ConfigurationError` from `_prepare_src`
because there is no source; the claim (and the spec) say the install is
never built, only verified.  When verification fails instead, the fatal
error with the remediation hint is raised as the claim states. -/
theorem c7_code_bug_eval :
    verify 1 bInst bFs = .ok () ∧
    installOne 1 wEnv false bInst bFs =
      (.error (.cfg ("No source code provided for " ++ "Pre") []),
       [Ev.verifyEv "pre", Ev.cleanPrefixEv "/opt/pre"]) ∧
    installOne 1 wEnv false bInst wFs0 =
      (.error (.spe ("Invalid " ++ "Pre" ++ " installation at " ++ "/opt/pre"
          ++ ": " ++ ("/opt/pre" ++ " does not exist"))
        ["Specify source code path or URL to enable broken package reinstallation."]),
       [Ev.verifyEv "pre"]) :=
  ⟨rfl, rfl, rfl⟩

/-! ### C8: dependencies first -/

/-- C8: installing a package first installs every dependency, in order and
each one completely (its own sub-dependency installs included in its
segment of the trace), before the package's own verification or build
produces any event; an error in a dependency install aborts the package's
install with that error; and `verify` verifies every dependency before any
check of the package's own prefix. -/
theorem c8_deps_first (n : Nat) (env : Env) (force : Bool) (i : Inst) (fs : FS) :
    (∀ e tr1, installList n env force (Inst.deps i) fs = (.error e, tr1) →
      installOne (n + 1) env force i fs = (.error e, tr1)) ∧
    (∀ fs1 tr1, installList n env force (Inst.deps i) fs = (.ok fs1, tr1) →
      ∃ r2 tr2, installOwn (n + 1) env force i fs1 = (r2, tr2) ∧
        installOne (n + 1) env force i fs = (r2, tr1 ++ tr2)) ∧
    (∀ d ds fs0 rd trd, installOne n env force d fs0 = (rd, trd) →
      (∀ e, rd = .error e → installList n env force (d :: ds) fs0 = (.error e, trd)) ∧
      (∀ fsd, rd = .ok fsd → ∃ rr trr, installList n env force ds fsd = (rr, trr) ∧
        installList n env force (d :: ds) fs0 = (rr, trd ++ trr))) ∧
    (verify (n + 1) i fs = .ok () → ∀ d ∈ Inst.deps i, verify n d fs = .ok ()) ∧
    (∀ e, exceptFold (fun d => verify n d fs) (Inst.deps i) = .error e →
      verify (n + 1) i fs = .error e) := by
  refine ⟨?_, ?_, ?_, ?_, ?_⟩
  · intro e tr1 h
    rw [installOne]
    unfold installList at h
    rw [h]
  · intro fs1 tr1 h
    rcases ho : installOwn (n + 1) env force i fs1 with ⟨r2, tr2⟩
    refine ⟨r2, tr2, rfl, ?_⟩
    rw [installOne]
    unfold installList at h
    rw [h]
    dsimp only
    rw [ho]
  · intro d ds fs0 rd trd h
    constructor
    · intro e he
      unfold installList installResFold
      dsimp only
      rw [h, he]
    · intro fsd hok
      rcases hr : installList n env force ds fsd with ⟨rr, trr⟩
      refine ⟨rr, trr, rfl, ?_⟩
      unfold installList installResFold
      dsimp only
      rw [h, hok]
      dsimp only
      unfold installList at hr
      rw [hr]
  · intro hv
    exact ((verify_succ_ok_iff n i fs).1 hv).1
  · intro e h
    rw [verify, h]

/-- The dependency used in the concrete two-package world. -/
def w8dep : Inst := .mk "dep" "Dep" (some "http://x/dep.tgz") "/usr/tau/dep/D" [] [] [] []

/-- A package with one dependency. -/
def w8 : Inst := .mk "top" "Top" (some "http://x/top.tgz") "/usr/tau/top/T" [] [] [] [w8dep]

/-- An environment in which both packages build: `make install` creates
both install prefixes. -/
def w8Env : Env :=
  Env.mk [⟨"/usr", true⟩] 4
    (fun _ => none)
    (fun _ _ _ => true)
    (fun a fs => if fs.pathExists a then some "pkg-1.0" else none)
    (fun _ bp fs => some (fs.addDir (pjoin bp "pkg-1.0")))
    (fun cmd _ fs =>
      if cmd == ["make", "install"] then
        (false, (fs.addDir "/usr/tau/dep/D").addDir "/usr/tau/top/T")
      else (false, fs))

/-- The result of the dependency loop of `w8` in the concrete world. -/
def w8run : Except Err FS × List Ev := installList 2 w8Env false (Inst.deps w8) wFs0

/-- The state after the dependency loop. -/
def w8fs1 : FS :=
  match w8run.1 with
  | .ok f => f
  | .error _ => wFs0

theorem c8_witness :
    ∃ r2 tr2, installOwn 3 w8Env false w8 w8fs1 = (r2, tr2) ∧
      installOne 3 w8Env false w8 wFs0 = (r2, w8run.2 ++ tr2) := by
  have h : installList 2 w8Env false (Inst.deps w8) wFs0 = (.ok w8fs1, w8run.2) := rfl
  exact (c8_deps_first 2 w8Env false w8 wFs0).2.1 w8fs1 w8run.2 h

/-! ### Event characterizations of source preparation (for C4 and C5) -/

theorem searchArchiveLoop_events (archName : String) (ls : List Storage) :
    ∀ (bp : Option String) (fs : FS),
      ∀ e ∈ (searchArchiveLoop archName ls bp fs).2.2.2, ∃ a b, e = Ev.copyEv a b := by
  induction ls with
  | nil => intro bp fs e he; simp [searchArchiveLoop] at he
  | cons s rest ih =>
    intro bp fs e he
    rw [searchArchiveLoop] at he
    cases hpe : fs.pathExists (pjoin (srcDirOf s) archName) with
    | true =>
      rw [hpe] at he
      by_cases hcmp : (bp.getD (srcDirOf s) == srcDirOf s) = true
      · simp [hcmp] at he
      · simp only [Bool.not_eq_true] at hcmp
        simp [hcmp] at he
        exact ⟨_, _, he⟩
    | false =>
      rw [hpe] at he
      rcases hrec : searchArchiveLoop archName rest (some (bp.getD (srcDirOf s))) fs
        with ⟨bpf, arcf, fsf, tr⟩
      rw [hrec] at he
      simp only at he
      have := ih (some (bp.getD (srcDirOf s))) fs e (by rw [hrec]; exact he)
      exact this

theorem stageExtract_events (env : Env) (reuse : Bool) (bp archive topdir : String)
    (fs : FS) (r : Except Err (String × FS)) (tr : List Ev)
    (h : stageExtract env reuse bp archive topdir fs = (r, tr)) :
    (∀ e ∈ tr, e = Ev.srcDeleteEv (pjoin bp topdir) ∨ e = Ev.extractEv archive bp) ∧
    (∀ sp fs2, r = .ok (sp, fs2) → sp = pjoin bp topdir) := by
  unfold stageExtract at h
  dsimp only at h
  split at h
  · rcases h with ⟨rfl, rfl⟩
    exact ⟨by simp, fun sp fs2 hr => by cases hr; rfl⟩
  · split at h
    · rcases h with ⟨rfl, rfl⟩
      exact ⟨by simp, fun sp fs2 hr => by cases hr⟩
    · rcases h with ⟨rfl, rfl⟩
      exact ⟨by simp, fun sp fs2 hr => by cases hr; rfl⟩

theorem mirrorStep_events (archive ap apArch : String) (same : Bool) (fs1 : FS) :
    ∀ e ∈ (mirrorStep archive ap apArch same fs1).2,
      e = Ev.mkdirpEv ap ∨ e = Ev.copyEv archive apArch := by
  cases same <;> simp [mirrorStep]

theorem prepareSrcNoReuse_events (env : Env) (i : Inst) (s : String)
    (bp0 : Option String) (fs : FS) (r : Except Err (String × FS)) (tr : List Ev)
    (h : prepareSrcNoReuse env i s bp0 fs = (r, tr)) :
    (∀ c w b, Ev.runEv c w b ∉ tr) ∧
    (∀ p, Ev.cleanPrefixEv p ∉ tr) ∧
    (∀ sp fs2, r = .ok (sp, fs2) → ∀ p, Ev.srcDeleteEv p ∈ tr → p = sp) := by
  unfold prepareSrcNoReuse at h
  split at h
  · cases h
    exact ⟨by simp, by simp, by simp⟩
  · rename_i hw hhw
    split at h
    · cases h
      exact ⟨by simp, by simp, by simp⟩
    · rename_i hdl
      rcases hmir : mirrorStep (pjoin (bp0.getD (srcDirOf hw)) (basename s)) (srcDirOf hw)
          (pjoin (srcDirOf hw) (basename s)) (bp0.getD (srcDirOf hw) == srcDirOf hw)
          (fs.addFile (pjoin (bp0.getD (srcDirOf hw)) (basename s))) with ⟨fs2, trm⟩
      rw [hmir] at h
      dsimp only at h
      have hmirE := mirrorStep_events (pjoin (bp0.getD (srcDirOf hw)) (basename s)) (srcDirOf hw)
          (pjoin (srcDirOf hw) (basename s)) (bp0.getD (srcDirOf hw) == srcDirOf hw)
          (fs.addFile (pjoin (bp0.getD (srcDirOf hw)) (basename s)))
      rw [hmir] at hmirE
      dsimp only at hmirE
      split at h
      · cases h
        refine ⟨?_, ?_, by simp⟩
        · intro c w b hm
          rcases List.mem_cons.1 hm with hm | hm
          · cases hm
          · rcases List.mem_append.1 hm with hm | hm
            · rcases hmirE _ hm with he | he <;> cases he
            · simp at hm
        · intro p hm
          rcases List.mem_cons.1 hm with hm | hm
          · cases hm
          · rcases List.mem_append.1 hm with hm | hm
            · rcases hmirE _ hm with he | he <;> cases he
            · simp at hm
      · rename_i topdir htd
        rcases hse : stageExtract env false (bp0.getD (srcDirOf hw))
            (pjoin (bp0.getD (srcDirOf hw)) (basename s)) topdir fs2 with ⟨rs, trs⟩
        obtain ⟨hall, hsp⟩ := stageExtract_events env false (bp0.getD (srcDirOf hw))
          (pjoin (bp0.getD (srcDirOf hw)) (basename s)) topdir fs2 rs trs hse
        rw [hse] at h
        dsimp only at h
        cases h
        refine ⟨?_, ?_, ?_⟩
        · intro c w b hm
          rcases List.mem_cons.1 hm with hm | hm
          · cases hm
          · rcases List.mem_append.1 hm with hm | hm
            · rcases List.mem_append.1 hm with hm | hm
              · rcases hmirE _ hm with he | he <;> cases he
              · simp at hm
            · rcases hall _ hm with he | he <;> cases he
        · intro p hm
          rcases List.mem_cons.1 hm with hm | hm
          · cases hm
          · rcases List.mem_append.1 hm with hm | hm
            · rcases List.mem_append.1 hm with hm | hm
              · rcases hmirE _ hm with he | he <;> cases he
              · simp at hm
            · rcases hall _ hm with he | he <;> cases he
        · intro sp fs3 hr p hm
          rcases List.mem_cons.1 hm with hm | hm
          · cases hm
          · rcases List.mem_append.1 hm with hm | hm
            · rcases List.mem_append.1 hm with hm | hm
              · rcases hmirE _ hm with he | he <;> cases he
              · simp at hm
            · rcases hall _ hm with he | he
              · cases he
                exact (hsp sp fs3 hr).symm
              · cases he

theorem prepareSrcReuse_events (env : Env) (i : Inst) (s : String)
    (bp0 : Option String) (fs : FS) (r : Except Err (String × FS)) (tr : List Ev)
    (h : prepareSrcReuse env i s bp0 fs = (r, tr)) :
    (∀ c w b, Ev.runEv c w b ∉ tr) ∧
    (∀ p, Ev.cleanPrefixEv p ∉ tr) ∧
    (∀ sp fs2, r = .ok (sp, fs2) → ∀ p, Ev.srcDeleteEv p ∈ tr → p = sp) := by
  have hloopE := searchArchiveLoop_events (basename s) (env.levels.reverse) bp0 fs
  unfold prepareSrcReuse at h
  dsimp only at h
  split at h
  · rename_i x1 x2 trl heq
    rw [heq] at hloopE
    dsimp only at hloopE
    cases h
    refine ⟨?_, ?_, by simp⟩
    · intro c w b hm
      rcases hloopE _ hm with ⟨a, b2, he⟩
      cases he
    · intro p hm
      rcases hloopE _ hm with ⟨a, b2, he⟩
      cases he
  · rename_i bpf archive fs1 trl heq
    rw [heq] at hloopE
    dsimp only at hloopE
    split at h
    · rename_i htd
      rcases hnr : prepareSrcNoReuse env i s (some (bpf.getD (srcDirOf ⟨"", false⟩))) fs1
        with ⟨rn, trn⟩
      obtain ⟨hnrR, hnrC, hnrS⟩ := prepareSrcNoReuse_events env i s _ fs1 rn trn hnr
      rw [hnr] at h
      dsimp only at h
      cases h
      refine ⟨?_, ?_, ?_⟩
      · intro c w b hm
        rcases List.mem_append.1 hm with hm | hm
        · rcases List.mem_append.1 hm with hm | hm
          · rcases hloopE _ hm with ⟨a, b2, he⟩
            cases he
          · simp at hm
        · exact hnrR c w b hm
      · intro p hm
        rcases List.mem_append.1 hm with hm | hm
        · rcases List.mem_append.1 hm with hm | hm
          · rcases hloopE _ hm with ⟨a, b2, he⟩
            cases he
          · simp at hm
        · exact hnrC p hm
      · intro sp fs3 hr p hm
        rcases List.mem_append.1 hm with hm | hm
        · rcases List.mem_append.1 hm with hm | hm
          · rcases hloopE _ hm with ⟨a, b2, he⟩
            cases he
          · simp at hm
        · exact hnrS sp fs3 hr p hm
    · rename_i topdir htd
      rcases hse : stageExtract env true (bpf.getD (srcDirOf ⟨"", false⟩)) archive topdir fs1
        with ⟨rs, trs⟩
      obtain ⟨hall, hsp⟩ := stageExtract_events env true _ archive topdir fs1 rs trs hse
      rw [hse] at h
      dsimp only at h
      cases h
      refine ⟨?_, ?_, ?_⟩
      · intro c w b hm
        rcases List.mem_append.1 hm with hm | hm
        · rcases List.mem_append.1 hm with hm | hm
          · rcases hloopE _ hm with ⟨a, b2, he⟩
            cases he
          · simp at hm
        · rcases hall _ hm with he | he <;> cases he
      · intro p hm
        rcases List.mem_append.1 hm with hm | hm
        · rcases List.mem_append.1 hm with hm | hm
          · rcases hloopE _ hm with ⟨a, b2, he⟩
            cases he
          · simp at hm
        · rcases hall _ hm with he | he <;> cases he
      · intro sp fs3 hr p hm
        rcases List.mem_append.1 hm with hm | hm
        · rcases List.mem_append.1 hm with hm | hm
          · rcases hloopE _ hm with ⟨a, b2, he⟩
            cases he
          · simp at hm
        · rcases hall _ hm with he | he
          · cases he
            exact (hsp sp fs3 hr).symm
          · cases he

theorem prepareSrc_events (env : Env) (i : Inst) (bp0 : Option String)
    (reuse : Bool) (fs : FS) (r : Except Err (String × FS)) (tr : List Ev)
    (h : prepareSrc env i bp0 reuse fs = (r, tr)) :
    (∀ c w b, Ev.runEv c w b ∉ tr) ∧
    (∀ p, Ev.cleanPrefixEv p ∉ tr) ∧
    (∀ sp fs2, r = .ok (sp, fs2) → ∀ p, Ev.srcDeleteEv p ∈ tr → p = sp) := by
  unfold prepareSrc at h
  split at h
  · cases h
    exact ⟨by simp, by simp, by simp⟩
  · rename_i s hs
    split at h
    · cases h
      exact ⟨by simp, by simp, by simp⟩
    · split at h
      · exact prepareSrcReuse_events env i s bp0 fs r tr h
      · exact prepareSrcNoReuse_events env i s bp0 fs r tr h

theorem configureStep_events (env : Env) (i : Inst) (flags : List String)
    (sp : String) (fs : FS) (rc : Except Err FS) (trc : List Ev)
    (h : configureStep env i flags sp fs = (rc, trc)) :
    ∀ e ∈ trc, ∃ c b, e = Ev.runEv c sp b ∧ c.head? = some "./configure" := by
  unfold configureStep at h
  dsimp only at h
  split at h <;> cases h <;>
    (intro e he
     simp only [List.mem_singleton] at he
     exact ⟨_, _, he, rfl⟩)

theorem makeStep_nil_events (env : Env) (i : Inst) (sp : String) (fs : FS)
    (rm : Except Err FS) (trm : List Ev)
    (h : makeStep env i [] true sp fs = (rm, trm)) :
    ∀ e ∈ trm, ∃ c b, e = Ev.runEv c sp b ∧
      (c = ["make", "-j", toString (max 1 (env.cpuCount - 1))] ∨ c = ["make"]) := by
  unfold makeStep parallelMakeFlags at h
  dsimp only at h
  split at h
  · cases h
    intro e he
    simp only [List.mem_singleton] at he
    exact ⟨_, _, he, Or.inl rfl⟩
  · split at h <;> cases h <;>
      (intro e he
       simp only [List.mem_cons, List.mem_singleton] at he
       rcases he with he | he
       · exact ⟨_, _, he, Or.inl rfl⟩
       · rcases he with he | he
         · exact ⟨_, _, he, Or.inr rfl⟩
         · cases he)

theorem makeInstallStep_nil_events (env : Env) (i : Inst) (sp : String) (fs : FS)
    (rmi : Except Err FS) (trmi : List Ev)
    (h : makeInstallStep env i [] false sp fs = (rmi, trmi)) :
    (trmi = [Ev.runEv ["make", "install"] sp false] ∧ ∃ e, rmi = .error e) ∨
    ((trmi = [Ev.runEv ["make", "install"] sp true] ∨
      trmi = [Ev.runEv ["make", "install"] sp true,
        Ev.symlinkEv (Inst.libPath i ++ "64") (Inst.libPath i)]) ∧
      ∃ fsx, rmi = .ok fsx) := by
  unfold makeInstallStep at h
  dsimp only at h
  split at h
  · cases h
    exact Or.inl ⟨rfl, _, rfl⟩
  · split at h <;> cases h
    · exact Or.inr ⟨Or.inr rfl, _, rfl⟩
    · exact Or.inr ⟨Or.inl rfl, _, rfl⟩

theorem buildTail_events (vfuel : Nat) (env : Env) (i : Inst) (sp : String)
    (fs : FS) (r : Except Err FS) (tr : List Ev)
    (h : buildTail vfuel env i sp fs = (r, tr)) :
    (∀ cwd, Ev.runEv ["make", "install"] cwd true ∈ tr →
      cwd = sp ∧ Ev.srcDeleteEv sp ∈ tr ∧
      (∃ fsf, r = (match verify vfuel i fsf with
        | .ok _ => .ok fsf
        | .error e => .error e))) ∧
    (∀ p, Ev.srcDeleteEv p ∈ tr → p = sp) ∧
    (∀ p, Ev.cleanPrefixEv p ∉ tr) := by
  unfold buildTail at h
  split at h
  · rename_i e trc hc
    cases h
    have hcE := configureStep_events env i [] sp fs _ _ hc
    refine ⟨?_, ?_, ?_⟩
    · intro cwd hm
      rcases hcE _ hm with ⟨c, b, he, hh⟩
      cases he
      simp at hh
    · intro p hm
      rcases hcE _ hm with ⟨c, b, he, hh⟩
      cases he
    · intro p hm
      rcases hcE _ hm with ⟨c, b, he, hh⟩
      cases he
  · rename_i fs3 trc hc
    have hcE := configureStep_events env i [] sp fs _ _ hc
    split at h
    · rename_i e trm hmk
      cases h
      have hmE := makeStep_nil_events env i sp fs3 _ _ hmk
      refine ⟨?_, ?_, ?_⟩
      · intro cwd hm
        rcases List.mem_append.1 hm with hm | hm
        · rcases hcE _ hm with ⟨c, b, he, hh⟩
          cases he
          simp at hh
        · rcases hmE _ hm with ⟨c, b, he, hh⟩
          cases he
          rcases hh with hh | hh <;> simp at hh
      · intro p hm
        rcases List.mem_append.1 hm with hm | hm
        · rcases hcE _ hm with ⟨c, b, he, hh⟩
          cases he
        · rcases hmE _ hm with ⟨c, b, he, hh⟩
          cases he
      · intro p hm
        rcases List.mem_append.1 hm with hm | hm
        · rcases hcE _ hm with ⟨c, b, he, hh⟩
          cases he
        · rcases hmE _ hm with ⟨c, b, he, hh⟩
          cases he
    · rename_i fs4 trm hmk
      have hmE := makeStep_nil_events env i sp fs3 _ _ hmk
      split at h
      · rename_i e trmi hmi
        cases h
        have hmiE := makeInstallStep_nil_events env i sp fs4 _ _ hmi
        refine ⟨?_, ?_, ?_⟩
        · intro cwd hm
          rcases List.mem_append.1 hm with hm | hm
          · rcases List.mem_append.1 hm with hm | hm
            · rcases hcE _ hm with ⟨c, b, he, hh⟩
              cases he
              simp at hh
            · rcases hmE _ hm with ⟨c, b, he, hh⟩
              cases he
              rcases hh with hh | hh <;> simp at hh
          · rcases hmiE with ⟨htr, _⟩ | ⟨htr, e2, hre⟩
            · rw [htr] at hm
              simp at hm
            · rcases hre with ⟨⟩
        · intro p hm
          rcases List.mem_append.1 hm with hm | hm
          · rcases List.mem_append.1 hm with hm | hm
            · rcases hcE _ hm with ⟨c, b, he, hh⟩
              cases he
            · rcases hmE _ hm with ⟨c, b, he, hh⟩
              cases he
          · rcases hmiE with ⟨htr, _⟩ | ⟨htr, e2, hre⟩
            · rw [htr] at hm
              simp at hm
            · rcases hre with ⟨⟩
        · intro p hm
          rcases List.mem_append.1 hm with hm | hm
          · rcases List.mem_append.1 hm with hm | hm
            · rcases hcE _ hm with ⟨c, b, he, hh⟩
              cases he
            · rcases hmE _ hm with ⟨c, b, he, hh⟩
              cases he
          · rcases hmiE with ⟨htr, _⟩ | ⟨htr, e2, hre⟩
            · rw [htr] at hm
              simp at hm
            · rcases hre with ⟨⟩
      · rename_i fs5 trmi hmi
        have hmiE := makeInstallStep_nil_events env i sp fs4 _ _ hmi
        have htrmi : trmi = [Ev.runEv ["make", "install"] sp true] ∨
            trmi = [Ev.runEv ["make", "install"] sp true,
              Ev.symlinkEv (Inst.libPath i ++ "64") (Inst.libPath i)] := by
          rcases hmiE with ⟨htr, e2, hre⟩ | ⟨htr, _⟩
          · cases hre
          · exact htr
        have hsdmem : Ev.srcDeleteEv sp ∈ tr := by
          split at h <;> cases h <;> simp
        have hres : ∃ fsf, r = (match verify vfuel i fsf with
            | .ok _ => .ok fsf
            | .error e => .error e) := by
          refine ⟨fs5.removeTree sp, ?_⟩
          split at h <;> cases h <;> rfl
        refine ⟨fun cwd hm => ?_, fun p hm => ?_, fun p hm => ?_⟩
        · have hcwd : cwd = sp := by
            have hm2 : Ev.runEv ["make", "install"] cwd true ∈
                trc ++ trm ++ trmi ++ [Ev.srcDeleteEv sp, Ev.verifyEv (Inst.name i)] := by
              split at h <;> cases h <;> exact hm
            rcases List.mem_append.1 hm2 with hm2 | hm2
            · rcases List.mem_append.1 hm2 with hm2 | hm2
              · rcases List.mem_append.1 hm2 with hm2 | hm2
                · rcases hcE _ hm2 with ⟨c, b, he, hh⟩
                  cases he
                  simp at hh
                · rcases hmE _ hm2 with ⟨c, b, he, hh⟩
                  cases he
                  rcases hh with hh | hh <;> simp at hh
              · rcases htrmi with htr | htr <;> rw [htr] at hm2 <;> simp at hm2 <;>
                  exact hm2
            · simp at hm2
          exact ⟨hcwd, hcwd ▸ hsdmem, hres⟩
        · have hm2 : Ev.srcDeleteEv p ∈
              trc ++ trm ++ trmi ++ [Ev.srcDeleteEv sp, Ev.verifyEv (Inst.name i)] := by
            split at h <;> cases h <;> exact hm
          rcases List.mem_append.1 hm2 with hm2 | hm2
          · rcases List.mem_append.1 hm2 with hm2 | hm2
            · rcases List.mem_append.1 hm2 with hm2 | hm2
              · rcases hcE _ hm2 with ⟨c, b, he, hh⟩
                cases he
              · rcases hmE _ hm2 with ⟨c, b, he, hh⟩
                cases he
            · rcases htrmi with htr | htr <;> rw [htr] at hm2 <;> simp at hm2
          · simp at hm2
            exact hm2
        · have hm2 : Ev.cleanPrefixEv p ∈
              trc ++ trm ++ trmi ++ [Ev.srcDeleteEv sp, Ev.verifyEv (Inst.name i)] := by
            split at h <;> cases h <;> exact hm
          rcases List.mem_append.1 hm2 with hm2 | hm2
          · rcases List.mem_append.1 hm2 with hm2 | hm2
            · rcases List.mem_append.1 hm2 with hm2 | hm2
              · rcases hcE _ hm2 with ⟨c, b, he, hh⟩
                cases he
              · rcases hmE _ hm2 with ⟨c, b, he, hh⟩
                cases he
            · rcases htrmi with htr | htr <;> rw [htr] at hm2 <;> simp at hm2
          · simp at hm2

theorem cleanSt_events (i : Inst) (fs : FS) :
    ∀ e ∈ (cleanSt i fs).2, e = Ev.cleanPrefixEv (Inst.installDir i) := by
  unfold cleanSt
  split <;> simp

theorem tmpSt_events (env : Env) (fs : FS) :
    ∀ e ∈ (tmpSt env fs).2.2, ∃ d, e = Ev.mkdtempEv d := by
  unfold tmpSt
  split <;> simp

theorem buildPhase_events (vfuel : Nat) (env : Env) (i : Inst) (fs : FS)
    (r : Except Err FS) (tr : List Ev) (h : buildPhase vfuel env i fs = (r, tr)) :
    ∀ cwd, Ev.runEv ["make", "install"] cwd true ∈ tr →
      Ev.srcDeleteEv cwd ∈ tr ∧
      (∀ p, Ev.srcDeleteEv p ∈ tr → p = cwd) ∧
      (∀ p, Ev.cleanPrefixEv p ∈ tr → p = Inst.installDir i) ∧
      (∃ fsf, r = (match verify vfuel i fsf with
        | .ok _ => .ok fsf
        | .error e => .error e)) := by
  have hclE := cleanSt_events i fs
  have htmE := tmpSt_events env (cleanSt i fs).1
  unfold buildPhase at h
  split at h
  · rename_i e trp hp
    obtain ⟨hpR, hpC, hpS⟩ := prepareSrc_events env i _ true _ _ _ hp
    cases h
    intro cwd hm
    rcases List.mem_append.1 hm with hm | hm
    · rcases List.mem_append.1 hm with hm | hm
      · have hx := hclE _ hm
        cases hx
      · rcases htmE _ hm with ⟨d, hd⟩
        cases hd
    · exact absurd hm (hpR _ _ _)
  · rename_i sp fs2 trp hp
    obtain ⟨hpR, hpC, hpS⟩ := prepareSrc_events env i _ true _ _ _ hp
    split at h
    rename_i rb trb hb
    obtain ⟨hbMI, hbS, hbC⟩ := buildTail_events vfuel env i sp fs2 rb trb hb
    cases h
    intro cwd hm
    have hmt : Ev.runEv ["make", "install"] cwd true ∈ trb := by
      rcases List.mem_append.1 hm with hm | hm
      · rcases List.mem_append.1 hm with hm | hm
        · rcases List.mem_append.1 hm with hm | hm
          · have hx := hclE _ hm
            cases hx
          · rcases htmE _ hm with ⟨d, hd⟩
            cases hd
        · exact absurd hm (hpR _ _ _)
      · exact hm
    obtain ⟨hcwd, hsd, hres⟩ := hbMI cwd hmt
    subst hcwd
    refine ⟨List.mem_append.2 (Or.inr hsd), ?_, ?_, hres⟩
    · intro p hmp
      rcases List.mem_append.1 hmp with hmp | hmp
      · rcases List.mem_append.1 hmp with hmp | hmp
        · rcases List.mem_append.1 hmp with hmp | hmp
          · have hx := hclE _ hmp
            cases hx
          · rcases htmE _ hmp with ⟨d, hd⟩
            cases hd
        · exact hpS cwd fs2 rfl p hmp
      · exact hbS p hmp
    · intro p hmp
      rcases List.mem_append.1 hmp with hmp | hmp
      · rcases List.mem_append.1 hmp with hmp | hmp
        · rcases List.mem_append.1 hmp with hmp | hmp
          · have hx := hclE _ hmp
            cases hx
            rfl
          · rcases htmE _ hmp with ⟨d, hd⟩
            cases hd
        · exact absurd hmp (hpC _)
      · exact absurd hmp (hbC _)

theorem installOwn_mi (vfuel : Nat) (env : Env) (force : Bool) (i : Inst)
    (fs : FS) (r : Except Err FS) (tr : List Ev)
    (h : installOwn vfuel env force i fs = (r, tr)) :
    ∀ sp, Ev.runEv ["make", "install"] sp true ∈ tr → Ev.srcDeleteEv sp ∈ tr := by
  unfold installOwn at h
  split at h
  · split at h
    · cases h
      intro sp hm
      simp at hm
    · rcases hb : buildPhase vfuel env i fs with ⟨rb, trb⟩
      rw [hb] at h
      dsimp only at h
      cases h
      intro sp hm
      rcases List.mem_cons.1 hm with hm | hm
      · cases hm
      · exact List.mem_cons.2 (Or.inr ((buildPhase_events vfuel env i fs _ _ hb sp hm).1))
  · split at h
    · split at h
      · cases h
        intro sp hm
        simp at hm
      · intro sp hm
        exact (buildPhase_events vfuel env i fs r tr h sp hm).1
    · intro sp hm
      exact (buildPhase_events vfuel env i fs r tr h sp hm).1

theorem installResFold_mi (f : Inst → FS → Except Err FS × List Ev) (l : List Inst)
    (hf : ∀ d ∈ l, ∀ fs r tr, f d fs = (r, tr) →
      ∀ sp, Ev.runEv ["make", "install"] sp true ∈ tr → Ev.srcDeleteEv sp ∈ tr) :
    ∀ fs r tr, installResFold f l fs = (r, tr) →
      ∀ sp, Ev.runEv ["make", "install"] sp true ∈ tr → Ev.srcDeleteEv sp ∈ tr := by
  induction l with
  | nil =>
    intro fs r tr h sp hm
    rw [installResFold] at h
    cases h
    simp at hm
  | cons d ds ih =>
    intro fs r tr h sp hm
    rw [installResFold] at h
    rcases hd : f d fs with ⟨rd, trd⟩
    rw [hd] at h
    cases rd with
    | error e =>
      cases h
      exact hf d (by simp) fs _ _ hd sp hm
    | ok fsd =>
      dsimp only at h
      rcases hr : installResFold f ds fsd with ⟨rr, trr⟩
      rw [hr] at h
      cases h
      rcases List.mem_append.1 hm with hm | hm
      · exact List.mem_append.2 (Or.inl (hf d (by simp) fs _ _ hd sp hm))
      · exact List.mem_append.2 (Or.inr (ih (fun x hx => hf x (by simp [hx])) fsd _ _ hr sp hm))

theorem installOne_mi (n : Nat) (env : Env) (force : Bool) :
    ∀ (i : Inst) (fs : FS) (r : Except Err FS) (tr : List Ev),
      installOne n env force i fs = (r, tr) →
      ∀ sp, Ev.runEv ["make", "install"] sp true ∈ tr → Ev.srcDeleteEv sp ∈ tr := by
  induction n with
  | zero =>
    intro i fs r tr h sp hm
    rw [installOne] at h
    cases h
    simp at hm
  | succ m ih =>
    intro i fs r tr h sp hm
    rw [installOne] at h
    rcases hf : installResFold (fun d fs1 => installOne m env force d fs1) (Inst.deps i) fs
      with ⟨r1, tr1⟩
    rw [hf] at h
    cases r1 with
    | error e =>
      cases h
      exact installResFold_mi _ (Inst.deps i)
        (fun d _ fsd rd trd hd => ih d fsd rd trd hd) fs _ _ hf sp hm
    | ok fs1 =>
      dsimp only at h
      rcases ho : installOwn (m + 1) env force i fs1 with ⟨r2, tr2⟩
      rw [ho] at h
      cases h
      rcases List.mem_append.1 hm with hm | hm
      · exact List.mem_append.2 (Or.inl (installResFold_mi _ (Inst.deps i)
          (fun d _ fsd rd trd hd => ih d fsd rd trd hd) fs _ _ hf sp hm))
      · exact List.mem_append.2 (Or.inr (installOwn_mi (m + 1) env force i fs1 r2 tr2 ho sp hm))

/-! ### C4: the final verification gate and staged-tree cleanup -/

/-- C4: whenever `install` returns normally, the returned state passes
`verify`; whenever a `make install` invocation succeeds (anywhere in the
run, dependencies included), the staged source tree in which it ran is
deleted afterwards; and in the build section the only deletions are the
staged source tree and the package's own install prefix — the downloaded
archive is never deleted — while the returned value is exactly the result
of the final `verify` call. -/
theorem c4_final_verify (k : Nat) (env : Env) (force : Bool) (i : Inst) (fs : FS)
    (r : Except Err FS) (tr : List Ev) (h : installOne k env force i fs = (r, tr)) :
    (∀ fs2, r = .ok fs2 → verify k i fs2 = .ok ()) ∧
    (∀ sp, Ev.runEv ["make", "install"] sp true ∈ tr → Ev.srcDeleteEv sp ∈ tr) ∧
    (∀ vf fs0 r0 tr0, buildPhase vf env i fs0 = (r0, tr0) →
      ∀ cwd, Ev.runEv ["make", "install"] cwd true ∈ tr0 →
        Ev.srcDeleteEv cwd ∈ tr0 ∧
        (∀ p, Ev.srcDeleteEv p ∈ tr0 → p = cwd) ∧
        (∀ p, Ev.cleanPrefixEv p ∈ tr0 → p = Inst.installDir i) ∧
        (∃ fsf, r0 = (match verify vf i fsf with
          | .ok _ => .ok fsf
          | .error e => .error e))) := by
  refine ⟨?_, ?_, ?_⟩
  · intro fs2 hr
    rw [hr] at h
    exact installOne_ok_verify k env force i fs fs2 tr h
  · exact installOne_mi k env force i fs r tr h
  · intro vf fs0 r0 tr0 hb
    exact buildPhase_events vf env i fs0 r0 tr0 hb

theorem c4_witness :
    (∃ fs2, (installOne 3 wEnv false wInst wFs0).1 = .ok fs2 ∧
      verify 3 wInst fs2 = .ok ()) ∧
    Ev.srcDeleteEv "/usr/src/pkg-1.0" ∈ (installOne 3 wEnv false wInst wFs0).2 ∧
    wFs1.pathExists "/usr/src/pkg.tgz" = true := by
  have h := c4_final_verify 3 wEnv false wInst wFs0
    (installOne 3 wEnv false wInst wFs0).1 (installOne 3 wEnv false wInst wFs0).2 rfl
  refine ⟨⟨wFs1, rfl, h.1 wFs1 rfl⟩, ?_, by decide⟩
  exact h.2.1 "/usr/src/pkg-1.0" (by decide)

/-! ### C5: the corrupt-archive retry is bounded at depth one -/

/-- How many archive-read attempts (`util.archive_toplevel` calls) a trace
records. -/
def readAttempts (tr : List Ev) : Nat :=
  tr.countP (fun e => match e with | .readArchiveEv _ _ => true | _ => false)

theorem readAttempts_append (t1 t2 : List Ev) :
    readAttempts (t1 ++ t2) = readAttempts t1 + readAttempts t2 :=
  List.countP_append _ _ _

theorem readAttempts_cons_download (sx dx : String) (t : List Ev) :
    readAttempts (Ev.downloadEv sx dx :: t) = readAttempts t := by
  unfold readAttempts
  rw [List.countP_cons_of_neg]
  simp

theorem searchArchiveLoop_readAttempts (archName : String) (ls : List Storage)
    (bp : Option String) (fs : FS) :
    readAttempts (searchArchiveLoop archName ls bp fs).2.2.2 = 0 := by
  unfold readAttempts
  rw [List.countP_eq_zero]
  intro e he
  rcases searchArchiveLoop_events archName ls bp fs e he with ⟨a, b, hab⟩
  subst hab
  simp

theorem stageExtract_readAttempts (env : Env) (reuse : Bool)
    (bp archive topdir : String) (fs : FS) (rs : Except Err (String × FS))
    (trs : List Ev) (hse : stageExtract env reuse bp archive topdir fs = (rs, trs)) :
    readAttempts trs = 0 := by
  obtain ⟨hall, _⟩ := stageExtract_events env reuse bp archive topdir fs rs trs hse
  unfold readAttempts
  rw [List.countP_eq_zero]
  intro e he
  rcases hall e he with he2 | he2 <;> subst he2 <;> simp

theorem mirrorStep_readAttempts (archive ap apArch : String) (same : Bool) (fs1 : FS) :
    readAttempts (mirrorStep archive ap apArch same fs1).2 = 0 := by
  unfold readAttempts
  rw [List.countP_eq_zero]
  intro e he
  rcases mirrorStep_events archive ap apArch same fs1 e he with he2 | he2 <;>
    subst he2 <;> simp

theorem prepareSrcNoReuse_readAttempts (env : Env) (i : Inst) (s : String)
    (bp0 : Option String) (fs : FS) (r : Except Err (String × FS)) (tr : List Ev)
    (h : prepareSrcNoReuse env i s bp0 fs = (r, tr)) :
    readAttempts tr ≤ 1 := by
  unfold prepareSrcNoReuse at h
  split at h
  · cases h
    simp [readAttempts]
  · rename_i hw hhw
    split at h
    · cases h
      simp [readAttempts, List.countP, List.countP.go]
    · rcases hmir : mirrorStep (pjoin (bp0.getD (srcDirOf hw)) (basename s)) (srcDirOf hw)
          (pjoin (srcDirOf hw) (basename s)) (bp0.getD (srcDirOf hw) == srcDirOf hw)
          (fs.addFile (pjoin (bp0.getD (srcDirOf hw)) (basename s))) with ⟨fs2, trm⟩
      have hmir0 : readAttempts trm = 0 := by
        have := mirrorStep_readAttempts (pjoin (bp0.getD (srcDirOf hw)) (basename s))
          (srcDirOf hw) (pjoin (srcDirOf hw) (basename s))
          (bp0.getD (srcDirOf hw) == srcDirOf hw)
          (fs.addFile (pjoin (bp0.getD (srcDirOf hw)) (basename s)))
        rw [hmir] at this
        exact this
      rw [hmir] at h
      dsimp only at h
      split at h
      · cases h
        unfold readAttempts at hmir0 ⊢
        simp [List.countP_cons, List.countP_append, hmir0]
      · rename_i topdir htd
        rcases hse : stageExtract env false (bp0.getD (srcDirOf hw))
            (pjoin (bp0.getD (srcDirOf hw)) (basename s)) topdir fs2 with ⟨rs, trs⟩
        have hse0 := stageExtract_readAttempts env false (bp0.getD (srcDirOf hw))
          (pjoin (bp0.getD (srcDirOf hw)) (basename s)) topdir fs2 rs trs hse
        rw [hse] at h
        dsimp only at h
        cases h
        unfold readAttempts at hmir0 hse0 ⊢
        simp [List.countP_cons, List.countP_append, hmir0, hse0]

theorem prepareSrcReuse_readAttempts (env : Env) (i : Inst) (s : String)
    (bp0 : Option String) (fs : FS) (r : Except Err (String × FS)) (tr : List Ev)
    (h : prepareSrcReuse env i s bp0 fs = (r, tr)) :
    readAttempts tr ≤ 2 := by
  have hloop0 := searchArchiveLoop_readAttempts (basename s) env.levels.reverse bp0 fs
  unfold prepareSrcReuse at h
  dsimp only at h
  split at h
  · rename_i x1 x2 trl heq
    rw [heq] at hloop0
    dsimp only at hloop0
    cases h
    omega
  · rename_i bpf archive fs1 trl heq
    rw [heq] at hloop0
    dsimp only at hloop0
    split at h
    · rcases hnr : prepareSrcNoReuse env i s (some (bpf.getD (srcDirOf ⟨"", false⟩))) fs1
        with ⟨rn, trn⟩
      have hn1 := prepareSrcNoReuse_readAttempts env i s
        (some (bpf.getD (srcDirOf ⟨"", false⟩))) fs1 rn trn hnr
      rw [hnr] at h
      dsimp only at h
      cases h
      unfold readAttempts at hloop0 hn1 ⊢
      rw [List.countP_append, List.countP_append, hloop0]
      simp only [List.countP_cons, List.countP_nil, if_true]
      simp only [Nat.zero_add, Nat.add_zero]
      omega
    · rename_i topdir htd
      rcases hse : stageExtract env true (bpf.getD (srcDirOf ⟨"", false⟩)) archive topdir fs1
        with ⟨rs, trs⟩
      have hse0 := stageExtract_readAttempts env true (bpf.getD (srcDirOf ⟨"", false⟩))
        archive topdir fs1 rs trs hse
      rw [hse] at h
      dsimp only at h
      cases h
      unfold readAttempts at hloop0 hse0 ⊢
      rw [List.countP_append, List.countP_append, hloop0, hse0]
      simp [List.countP_cons]

/-- A failed archive read inside the `reuse=False` pass is final: the
result is the `ConfigurationError` naming that archive. -/
theorem prepareSrcNoReuse_read_failed_final (env : Env) (i : Inst) (s : String)
    (bp0 : Option String) (fs : FS) (r : Except Err (String × FS)) (tr : List Ev)
    (h : prepareSrcNoReuse env i s bp0 fs = (r, tr)) :
    ∀ a, Ev.readArchiveEv a false ∈ tr →
      r = .error (.cfg ("Cannot read " ++ Inst.title i ++ " archive file " ++ a) []) := by
  unfold prepareSrcNoReuse at h
  split at h
  · cases h
    intro a hm
    simp at hm
  · rename_i hw hhw
    split at h
    · cases h
      intro a hm
      simp at hm
    · rcases hmir : mirrorStep (pjoin (bp0.getD (srcDirOf hw)) (basename s)) (srcDirOf hw)
          (pjoin (srcDirOf hw) (basename s)) (bp0.getD (srcDirOf hw) == srcDirOf hw)
          (fs.addFile (pjoin (bp0.getD (srcDirOf hw)) (basename s))) with ⟨fs2, trm⟩
      have hmirE := mirrorStep_events (pjoin (bp0.getD (srcDirOf hw)) (basename s))
        (srcDirOf hw) (pjoin (srcDirOf hw) (basename s))
        (bp0.getD (srcDirOf hw) == srcDirOf hw)
        (fs.addFile (pjoin (bp0.getD (srcDirOf hw)) (basename s)))
      rw [hmir] at hmirE
      dsimp only at hmirE
      rw [hmir] at h
      dsimp only at h
      split at h
      · cases h
        intro a hm
        rcases List.mem_cons.1 hm with hm | hm
        · cases hm
        · rcases List.mem_append.1 hm with hm | hm
          · rcases hmirE _ hm with he | he <;> cases he
          · simp only [List.mem_singleton] at hm
            cases hm
            rfl
      · rename_i topdir htd
        rcases hse : stageExtract env false (bp0.getD (srcDirOf hw))
            (pjoin (bp0.getD (srcDirOf hw)) (basename s)) topdir fs2 with ⟨rs, trs⟩
        obtain ⟨hall, _⟩ := stageExtract_events env false (bp0.getD (srcDirOf hw))
          (pjoin (bp0.getD (srcDirOf hw)) (basename s)) topdir fs2 rs trs hse
        rw [hse] at h
        dsimp only at h
        cases h
        intro a hm
        rcases List.mem_cons.1 hm with hm | hm
        · cases hm
        · rcases List.mem_append.1 hm with hm | hm
          · rcases List.mem_append.1 hm with hm | hm
            · rcases hmirE _ hm with he | he <;> cases he
            · simp at hm
          · rcases hall _ hm with he | he <;> cases he

/-- The fresh-download pass downloads whenever a writable storage level
exists. -/
theorem prepareSrcNoReuse_download (env : Env) (i : Inst) (s : String)
    (bp0 : Option String) (fs : FS) (hw : Storage)
    (hhw : highestWritableStorage env.levels = some hw) :
    ∃ dst, Ev.downloadEv s dst ∈ (prepareSrcNoReuse env i s bp0 fs).2 := by
  unfold prepareSrcNoReuse
  rw [hhw]
  dsimp only
  refine ⟨pjoin (bp0.getD (srcDirOf hw)) (basename s), ?_⟩
  split
  · simp
  · split
    · simp
    · simp

/-- C5: with `reuse=True`, an unreadable archive triggers exactly one
automatic retry of the whole acquisition and staging sequence with
`reuse=False` — a fresh download whenever writable storage exists; a failed
read in the retry is final and yields the `ConfigurationError`; and no run
of `_prepare_src` ever attempts more than two archive reads, so the
recursion is bounded at depth one. -/
theorem c5_retry_once (env : Env) (i : Inst) (s : String) (bp0 : Option String)
    (fs fs1 : FS) (bp archive : String) (evs : List Ev)
    (hsrc : Inst.src i = some s) (hne : s.isEmpty = false)
    (hloop : searchArchiveLoop (basename s) env.levels.reverse bp0 fs =
      (some bp, some archive, fs1, evs))
    (hbad : env.topdirOf archive fs1 = none) :
    (prepareSrc env i bp0 true fs =
      ((prepareSrcNoReuse env i s (some bp) fs1).1,
        evs ++ [Ev.readArchiveEv archive false] ++ (prepareSrcNoReuse env i s (some bp) fs1).2)) ∧
    (∀ hw, highestWritableStorage env.levels = some hw →
      ∃ dst, Ev.downloadEv s dst ∈ (prepareSrc env i bp0 true fs).2) ∧
    (∀ r2 tr2, prepareSrcNoReuse env i s (some bp) fs1 = (r2, tr2) →
      ∀ a, Ev.readArchiveEv a false ∈ tr2 →
        r2 = .error (.cfg ("Cannot read " ++ Inst.title i ++ " archive file " ++ a) [])) ∧
    (∀ (env2 : Env) (i2 : Inst) (bp2 : Option String) (reuse : Bool) (fs2 : FS),
      readAttempts (prepareSrc env2 i2 bp2 reuse fs2).2 ≤ 2) := by
  have hdisp : prepareSrc env i bp0 true fs =
      ((prepareSrcNoReuse env i s (some bp) fs1).1,
        evs ++ [Ev.readArchiveEv archive false] ++ (prepareSrcNoReuse env i s (some bp) fs1).2) := by
    unfold prepareSrc
    rw [hsrc]
    dsimp only
    rw [if_neg (by simp [hne]), if_pos rfl]
    unfold prepareSrcReuse
    dsimp only
    rw [hloop]
    dsimp only
    rw [hbad]
    dsimp only
    simp only [Option.getD_some]
  refine ⟨hdisp, ?_, ?_, ?_⟩
  · intro hw hhw
    obtain ⟨dst, hd⟩ := prepareSrcNoReuse_download env i s (some bp) fs1 hw hhw
    refine ⟨dst, ?_⟩
    rw [hdisp]
    exact List.mem_append.2 (Or.inr hd)
  · intro r2 tr2 h2
    exact prepareSrcNoReuse_read_failed_final env i s (some bp) fs1 r2 tr2 h2
  · intro env2 i2 bp2 reuse fs2
    rcases hp : prepareSrc env2 i2 bp2 reuse fs2 with ⟨rp, trp⟩
    show readAttempts trp ≤ 2
    unfold prepareSrc at hp
    split at hp
    · cases hp
      simp [readAttempts]
    · split at hp
      · cases hp
        simp [readAttempts]
      · split at hp
        · exact prepareSrcReuse_readAttempts env2 i2 _ bp2 fs2 rp trp hp
        · exact (prepareSrcNoReuse_readAttempts env2 i2 _ bp2 fs2 rp trp hp).trans (by omega)

/-- A package whose archive is always unreadable (corrupt). -/
def w5Inst : Inst := .mk "a" "A" (some "http://x/a.tgz") "/usr/tau/a/H" [] [] [] []

/-- An environment whose `archive_toplevel` always fails. -/
def w5Env : Env :=
  Env.mk [⟨"/usr", true⟩] 4
    (fun _ => none)
    (fun _ _ _ => true)
    (fun _ _ => none)
    (fun _ _ _ => none)
    (fun _ _ fs => (false, fs))

theorem c5_witness :
    (prepareSrc w5Env w5Inst none true wFs0 =
      ((prepareSrcNoReuse w5Env w5Inst "http://x/a.tgz" (some "/usr/src") wFs0).1,
        [] ++ [Ev.readArchiveEv "/usr/src/a.tgz" false] ++
          (prepareSrcNoReuse w5Env w5Inst "http://x/a.tgz" (some "/usr/src") wFs0).2)) ∧
    (prepareSrcNoReuse w5Env w5Inst "http://x/a.tgz" (some "/usr/src") wFs0).1 =
      .error (.cfg ("Cannot read " ++ Inst.title w5Inst ++ " archive file "
        ++ "/usr/src/a.tgz") []) ∧
    readAttempts (prepareSrc w5Env w5Inst none true wFs0).2 ≤ 2 := by
  have h := c5_retry_once w5Env w5Inst "http://x/a.tgz" none wFs0 wFs0
    "/usr/src" "/usr/src/a.tgz" [] rfl rfl rfl rfl
  exact ⟨h.1, h.2.2.1 _ _ rfl "/usr/src/a.tgz" (by decide),
    h.2.2.2 w5Env w5Inst none true wFs0⟩

/-! ### C6: serial retry of a failed parallel make -/

/-- C6: `make` is invoked with parallelism flags `-j n` where `n` defaults
to `max(1, cpu_count - 1)`; when that parallel invocation exits non-zero,
`make` retries exactly once with the identical command minus the
parallelism flags, raising `SoftwarePackageError` if the serial retry also
fails — two subprocess invocations, no further retries — and succeeding
without any retry when the parallel build succeeds. -/
theorem c6_make_serial_retry (env : Env) (i : Inst) (flags : List String)
    (sp : String) (fs : FS) :
    parallelMakeFlags none env.cpuCount = ["-j", toString (max 1 (env.cpuCount - 1))] ∧
    (∀ fs1, env.runCmd (["make"] ++ parallelMakeFlags none env.cpuCount ++ flags) sp fs
        = (true, fs1) →
      (∀ fs2, env.runCmd (["make"] ++ flags) sp fs1 = (true, fs2) →
        makeStep env i flags true sp fs =
          (.error (.spe (Inst.title i ++ " compilation failed") []),
           [Ev.runEv (["make"] ++ parallelMakeFlags none env.cpuCount ++ flags) sp false,
            Ev.runEv (["make"] ++ flags) sp false])) ∧
      (∀ fs2, env.runCmd (["make"] ++ flags) sp fs1 = (false, fs2) →
        makeStep env i flags true sp fs =
          (.ok fs2,
           [Ev.runEv (["make"] ++ parallelMakeFlags none env.cpuCount ++ flags) sp false,
            Ev.runEv (["make"] ++ flags) sp true]))) ∧
    (∀ fs1, env.runCmd (["make"] ++ parallelMakeFlags none env.cpuCount ++ flags) sp fs
        = (false, fs1) →
      makeStep env i flags true sp fs =
        (.ok fs1,
         [Ev.runEv (["make"] ++ parallelMakeFlags none env.cpuCount ++ flags) sp true])) := by
  refine ⟨rfl, ?_, ?_⟩
  · intro fs1 h1
    constructor
    · intro fs2 h2
      unfold makeStep
      rw [if_pos rfl]
      dsimp only
      rw [h1]
      dsimp only
      rw [h2]
    · intro fs2 h2
      unfold makeStep
      rw [if_pos rfl]
      dsimp only
      rw [h1]
      dsimp only
      rw [h2]
  · intro fs1 h1
    unfold makeStep
    rw [if_pos rfl]
    dsimp only
    rw [h1]

/-- An environment where every subprocess fails. -/
def w6Env : Env :=
  Env.mk [⟨"/usr", true⟩] 4
    (fun _ => none)
    (fun _ _ _ => true)
    (fun _ _ => none)
    (fun _ _ _ => none)
    (fun _ _ fs => (true, fs))

theorem c6_witness :
    parallelMakeFlags none w6Env.cpuCount = ["-j", "3"] ∧
    makeStep w6Env wInst [] true "/build/x" wFs0 =
      (.error (.spe (Inst.title wInst ++ " compilation failed") []),
       [Ev.runEv ["make", "-j", "3"] "/build/x" false,
        Ev.runEv ["make"] "/build/x" false]) := by
  have h := c6_make_serial_retry w6Env wInst [] "/build/x" wFs0
  exact ⟨h.1, (h.2.1 wFs0 rfl).1 wFs0 rfl⟩

/-! ### C9: the with-statement lock protocol -/

/-- C9: `__enter__` creates the install directory and acquires the lock
file exactly when a source specifier is present; for a pre-installed
package it is a no-op, and `__exit__` still returns normally (returning
`False`, never suppressing an exception) because releasing an unheld lock
raises `NotLocked`, which is silently swallowed on every exit path. -/
theorem c9_enter_exit (i : Inst) (st : LockSt) :
    (truthy (Inst.src i) = true →
      (enterCtx i st).fs.isDir (Inst.installDir i) = true ∧
      (enterCtx i st).locked (Inst.lockPath i) = true) ∧
    (truthy (Inst.src i) = false → enterCtx i st = st) ∧
    (st.locked (Inst.lockPath i) = false →
      releaseLock (Inst.lockPath i) st = .error () ∧ exitCtx i st = (st, false)) ∧
    (∀ st2, ∃ st3, exitCtx i st2 = (st3, false)) := by
  refine ⟨?_, ?_, ?_, ?_⟩
  · intro hs
    unfold enterCtx
    rw [hs]
    constructor
    · simp [FS.addDir]
    · simp
  · intro hs
    unfold enterCtx
    rw [hs]
    rfl
  · intro hl
    have hr : releaseLock (Inst.lockPath i) st = .error () := by
      unfold releaseLock
      rw [hl]
      rfl
    exact ⟨hr, by unfold exitCtx; rw [hr]⟩
  · intro st2
    unfold exitCtx
    cases hr : releaseLock (Inst.lockPath i) st2 with
    | ok st3 => exact ⟨st3, rfl⟩
    | error u => exact ⟨st2, rfl⟩

/-- A world with no directories and no held locks. -/
def w9St : LockSt := LockSt.mk wFs0 (fun _ => false)

theorem c9_witness :
    ((enterCtx wInst w9St).fs.isDir (Inst.installDir wInst) = true ∧
      (enterCtx wInst w9St).locked (Inst.lockPath wInst) = true) ∧
    enterCtx bInst w9St = w9St ∧
    (releaseLock (Inst.lockPath bInst) w9St = .error () ∧
      exitCtx bInst w9St = (w9St, false)) := by
  refine ⟨(c9_enter_exit wInst w9St).1 rfl, (c9_enter_exit bInst w9St).2.1 rfl, ?_⟩
  exact (c9_enter_exit bInst w9St).2.2.1 rfl

/-! ### C10: compiletime and runtime configuration -/

theorem get?_set_self (m : EnvMap) (k v : String) :
    EnvMap.get? (EnvMap.set m k v) k = some v := by
  unfold EnvMap.set EnvMap.get?
  rw [List.find?_cons_of_pos _ (by simp)]
  rfl

theorem get?_set_other (m : EnvMap) (k v k2 : String) (hk : k2 ≠ k) :
    EnvMap.get? (EnvMap.set m k v) k2 = EnvMap.get? m k2 := by
  unfold EnvMap.set EnvMap.get?
  rw [List.find?_cons_of_neg _ (by simp only [beq_iff_eq]; exact Ne.symm hk)]

theorem get?_prependVar_self_some (m : EnvMap) (k path old : String)
    (h : EnvMap.get? m k = some old) :
    EnvMap.get? (prependVar m k path) k = some (path ++ ":" ++ old) := by
  unfold prependVar
  rw [h]
  exact get?_set_self m k _

theorem get?_prependVar_self_none (m : EnvMap) (k path : String)
    (h : EnvMap.get? m k = none) :
    EnvMap.get? (prependVar m k path) k = some path := by
  unfold prependVar
  rw [h]
  exact get?_set_self m k _

theorem get?_prependVar_other (m : EnvMap) (k path k2 : String) (hk : k2 ≠ k) :
    EnvMap.get? (prependVar m k path) k2 = EnvMap.get? m k2 := by
  unfold prependVar
  cases h : EnvMap.get? m k <;> exact get?_set_other m k _ k2 hk

theorem isEmpty_eq_false_of_ne_nil (m : EnvMap) (h : m ≠ []) : m.isEmpty = false := by
  cases m with
  | nil => exact absurd rfl h
  | cons p m => rfl

/-- C10: `compiletime_config` and `runtime_config` work on copies of their
arguments: the returned options are the input options de-duplicated
through a Python `set` (duplicates removed, membership preserved, order
not guaranteed — witnessed by a contract-satisfying set enumeration that
reorders); the `bin` directory is prepended to `PATH` (with `os.pathsep`)
only when it exists on disk, and `runtime_config` additionally prepends
the `lib` directory to the platform library-path variable only when that
directory exists; every other environment variable is left unchanged, and
with neither directory present the returned mapping is the input mapping
itself. -/
theorem c10_config (setEnum : List String → List String) (hset : PySetEnum setEnum)
    (osEnviron : EnvMap) (darwin : Bool) (fs : FS) (i : Inst) (opts : List String)
    (env : EnvMap) (henv : env ≠ []) :
    ((compiletimeConfig setEnum osEnviron fs i opts env).1.Nodup ∧
      (∀ x, x ∈ (compiletimeConfig setEnum osEnviron fs i opts env).1 ↔ x ∈ opts) ∧
      (runtimeConfig setEnum osEnviron darwin fs i opts env).1.Nodup ∧
      (∀ x, x ∈ (runtimeConfig setEnum osEnviron darwin fs i opts env).1 ↔ x ∈ opts)) ∧
    (fs.isDir (Inst.binPath i) = false →
      (compiletimeConfig setEnum osEnviron fs i opts env).2 = env) ∧
    (fs.isDir (Inst.binPath i) = true →
      (∀ old, EnvMap.get? env "PATH" = some old →
        EnvMap.get? (compiletimeConfig setEnum osEnviron fs i opts env).2 "PATH" =
          some (Inst.binPath i ++ ":" ++ old)) ∧
      (EnvMap.get? env "PATH" = none →
        EnvMap.get? (compiletimeConfig setEnum osEnviron fs i opts env).2 "PATH" =
          some (Inst.binPath i))) ∧
    (∀ k, k ≠ "PATH" →
      EnvMap.get? (compiletimeConfig setEnum osEnviron fs i opts env).2 k =
        EnvMap.get? env k) ∧
    (fs.isDir (Inst.binPath i) = false → fs.isDir (Inst.libPath i) = false →
      (runtimeConfig setEnum osEnviron darwin fs i opts env).2 = env) ∧
    (fs.isDir (Inst.libPath i) = true →
      (∀ old, EnvMap.get? env (if darwin then "DYLD_LIBRARY_PATH" else "LD_LIBRARY_PATH")
          = some old →
        EnvMap.get? (runtimeConfig setEnum osEnviron darwin fs i opts env).2
          (if darwin then "DYLD_LIBRARY_PATH" else "LD_LIBRARY_PATH") =
          some (Inst.libPath i ++ ":" ++ old))) ∧
    (fs.isDir (Inst.libPath i) = false →
      EnvMap.get? (runtimeConfig setEnum osEnviron darwin fs i opts env).2
        (if darwin then "DYLD_LIBRARY_PATH" else "LD_LIBRARY_PATH") =
        EnvMap.get? env (if darwin then "DYLD_LIBRARY_PATH" else "LD_LIBRARY_PATH")) ∧
    (∀ k, k ≠ "PATH" → k ≠ "DYLD_LIBRARY_PATH" → k ≠ "LD_LIBRARY_PATH" →
      EnvMap.get? (runtimeConfig setEnum osEnviron darwin fs i opts env).2 k =
        EnvMap.get? env k) ∧
    (∃ f l, PySetEnum f ∧ f l ≠ l) := by
  have he0 : (if env.isEmpty then osEnviron else env) = env := by
    rw [isEmpty_eq_false_of_ne_nil env henv]
    rfl
  have hlibne : (if darwin then "DYLD_LIBRARY_PATH" else "LD_LIBRARY_PATH") ≠ "PATH" := by
    cases darwin <;> simp
  refine ⟨⟨(hset (opts)).1, fun x => (hset opts).2 x, (hset opts).1, fun x => (hset opts).2 x⟩,
    ?_, ?_, ?_, ?_, ?_, ?_, ?_, ?_⟩
  · intro hb
    unfold compiletimeConfig
    rw [he0, hb]
    rfl
  · intro hb
    constructor
    · intro old hold
      unfold compiletimeConfig
      rw [he0, hb]
      dsimp only
      rw [if_pos rfl]
      exact get?_prependVar_self_some env "PATH" _ old hold
    · intro hnone
      unfold compiletimeConfig
      rw [he0, hb]
      dsimp only
      rw [if_pos rfl]
      exact get?_prependVar_self_none env "PATH" _ hnone
  · intro k hk
    unfold compiletimeConfig
    rw [he0]
    cases hb : fs.isDir (Inst.binPath i)
    · rfl
    · dsimp only
      rw [if_pos rfl]
      exact get?_prependVar_other env "PATH" _ k hk
  · intro hb hl
    unfold runtimeConfig
    rw [he0, hb, hl]
    rfl
  · intro hl old hold
    unfold runtimeConfig
    rw [he0, hl]
    dsimp only
    cases hb : fs.isDir (Inst.binPath i)
    · rw [if_pos rfl, if_neg (by simp)]
      exact get?_prependVar_self_some env _ _ old hold
    · rw [if_pos rfl]
      try rw [if_pos rfl]
      refine get?_prependVar_self_some _ _ _ old ?_
      rw [get?_prependVar_other env "PATH" (Inst.binPath i) _ hlibne]
      exact hold
  · intro hl
    unfold runtimeConfig
    rw [he0, hl]
    dsimp only
    cases hb : fs.isDir (Inst.binPath i)
    · rfl
    · rw [if_neg (by simp), if_pos rfl]
      exact get?_prependVar_other env "PATH" (Inst.binPath i) _ hlibne
  · intro k hk1 hk2 hk3
    have hklib : k ≠ (if darwin then "DYLD_LIBRARY_PATH" else "LD_LIBRARY_PATH") := by
      cases darwin <;> simp [hk2, hk3]
    unfold runtimeConfig
    rw [he0]
    dsimp only
    cases hb : fs.isDir (Inst.binPath i) <;> cases hl : fs.isDir (Inst.libPath i)
    · rfl
    · rw [if_pos rfl, if_neg (by simp)]
      exact get?_prependVar_other env _ (Inst.libPath i) k hklib
    · rw [if_neg (by simp), if_pos rfl]
      exact get?_prependVar_other env "PATH" (Inst.binPath i) k hk1
    · rw [if_pos rfl]
      try rw [if_pos rfl]
      rw [get?_prependVar_other _ _ (Inst.libPath i) k hklib]
      exact get?_prependVar_other env "PATH" (Inst.binPath i) k hk1
  · refine ⟨fun l => l.dedup.reverse, ["a", "b"], ?_, ?_⟩
    · intro l
      exact ⟨List.nodup_reverse.2 l.nodup_dedup, fun x => by simp⟩
    · decide

/-- A concrete Python-set enumeration (reversed de-duplication). -/
def w10set : List String → List String := fun l => l.dedup.reverse

theorem w10set_contract : PySetEnum w10set :=
  fun l => ⟨List.nodup_reverse.2 l.nodup_dedup, fun x => by simp [w10set]⟩

/-- A concrete environment mapping. -/
def w10env : EnvMap := [("PATH", "/bin"), ("HOME", "/root")]

/-- A filesystem on which only the package's `bin` directory exists. -/
def w10fs : FS :=
  FS.mk (fun q => q == "/usr/tau/pkg/H/bin") (fun _ => false) (fun _ => false) (fun _ => false)

theorem c10_witness :
    (∀ x, x ∈ (compiletimeConfig w10set [] w10fs wInst ["a", "b", "a"] w10env).1 ↔
      x ∈ ["a", "b", "a"]) ∧
    EnvMap.get? (compiletimeConfig w10set [] w10fs wInst ["a", "b", "a"] w10env).2 "PATH" =
      some (Inst.binPath wInst ++ ":" ++ "/bin") ∧
    EnvMap.get? (compiletimeConfig w10set [] w10fs wInst ["a", "b", "a"] w10env).2 "HOME" =
      EnvMap.get? w10env "HOME" := by
  have h := c10_config w10set w10set_contract [] false w10fs wInst ["a", "b", "a"] w10env
    (by decide)
  exact ⟨h.1.2.1, (h.2.2.1 rfl).1 "/bin" rfl, h.2.2.2.1 "HOME" (by decide)⟩

/-! ### C1: construction-time resolution of the install prefix -/

theorem find?_some_split {α : Type} (p : α → Bool) (l : List α) (a : α)
    (h : l.find? p = some a) :
    p a = true ∧ ∃ l1 l2, l = l1 ++ a :: l2 ∧ ∀ x ∈ l1, p x = false := by
  induction l with
  | nil => simp [List.find?] at h
  | cons x xs ih =>
    cases hx : p x with
    | true =>
      rw [List.find?_cons_of_pos _ hx] at h
      cases h
      exact ⟨hx, [], xs, rfl, by simp⟩
    | false =>
      rw [List.find?_cons_of_neg _ (by simp [hx])] at h
      obtain ⟨hp, l1, l2, hl, hall⟩ := ih h
      refine ⟨hp, x :: l1, l2, by rw [hl]; rfl, ?_⟩
      intro y hy
      rcases List.mem_cons.1 hy with hy | hy
      · exact hy ▸ hx
      · exact hall y hy

/-- C1 (amended): the constructor resolves the install prefix by scanning
the storage levels from highest to lowest priority: it picks the candidate
`<storage_root>/<prefix>/<name>/<md5(src)>` of a verifying level none of
whose higher-priority levels verifies; when no level verifies it places the
prefix at the highest-priority writable level, and with no writable level
the resolution signals the fatal error; the hash is taken of the source
specifier after `download` resolution. -/
theorem c1_resolution (vfuel : Nat) (fs : FS) (levels : List Storage)
    (md5hex : String → String) (i : Inst) (pfx srcRaw repoLookup : String) :
    (initInstallDir vfuel fs levels md5hex i pfx srcRaw repoLookup =
      resolveInstallDir vfuel fs levels i pfx (md5hex (resolveSrc srcRaw repoLookup))) ∧
    (∀ uid p, resolveInstallDir vfuel fs levels i pfx uid = some p →
      (∃ lo s hi, levels = lo ++ s :: hi ∧
        verifyOkB vfuel (Inst.withInstallDir i
          (candidatePath (Storage.root s) pfx (Inst.name i) uid)) fs = true ∧
        (∀ t ∈ hi, verifyOkB vfuel (Inst.withInstallDir i
          (candidatePath (Storage.root t) pfx (Inst.name i) uid)) fs = false) ∧
        p = candidatePath (Storage.root s) pfx (Inst.name i) uid) ∨
      ((∀ s ∈ levels, verifyOkB vfuel (Inst.withInstallDir i
          (candidatePath (Storage.root s) pfx (Inst.name i) uid)) fs = false) ∧
        ∃ lo w hi, levels = lo ++ w :: hi ∧ Storage.writable w = true ∧
          (∀ t ∈ hi, Storage.writable t = false) ∧
          p = candidatePath (Storage.root w) pfx (Inst.name i) uid)) ∧
    (∀ uid, (∀ s ∈ levels, verifyOkB vfuel (Inst.withInstallDir i
        (candidatePath (Storage.root s) pfx (Inst.name i) uid)) fs = false) →
      (∀ s ∈ levels, Storage.writable s = false) →
      resolveInstallDir vfuel fs levels i pfx uid = none) := by
  refine ⟨rfl, ?_, ?_⟩
  · intro uid p h
    unfold resolveInstallDir at h
    cases hf : levels.reverse.find? (fun s => verifyOkB vfuel (Inst.withInstallDir i
        (candidatePath (Storage.root s) pfx (Inst.name i) uid)) fs) with
    | some s =>
      rw [hf] at h
      cases h
      obtain ⟨hp, l1, l2, hl, hall⟩ := find?_some_split _ _ _ hf
      refine Or.inl ⟨l2.reverse, s, l1.reverse, ?_, hp, ?_, rfl⟩
      · rw [← List.reverse_reverse levels, hl]
        simp
      · intro t ht
        exact hall t (List.mem_reverse.1 ht)
    | none =>
      rw [hf] at h
      have hnov : ∀ s ∈ levels, verifyOkB vfuel (Inst.withInstallDir i
          (candidatePath (Storage.root s) pfx (Inst.name i) uid)) fs = false := by
        intro s hs
        have := List.find?_eq_none.1 hf s (List.mem_reverse.2 hs)
        simpa using this
      unfold highestWritableStorage at h
      cases hw : levels.reverse.find? (fun s => Storage.writable s) with
      | some w =>
        rw [hw] at h
        cases h
        obtain ⟨hp, l1, l2, hl, hall⟩ := find?_some_split _ _ _ hw
        refine Or.inr ⟨hnov, l2.reverse, w, l1.reverse, ?_, hp, ?_, rfl⟩
        · rw [← List.reverse_reverse levels, hl]
          simp
        · intro t ht
          exact hall t (List.mem_reverse.1 ht)
      | none =>
        rw [hw] at h
        exact absurd h (by simp)
  · intro uid hnov hnow
    unfold resolveInstallDir
    rw [List.find?_eq_none.2 (fun s hs => by simp [hnov s (List.mem_reverse.1 hs)])]
    unfold highestWritableStorage
    rw [List.find?_eq_none.2 (fun s hs => by simp [hnow s (List.mem_reverse.1 hs)])]
    rfl

/-- Two storage levels (lowest to highest precedence), both holding a
verified installation of the package. -/
def c1Levels : List Storage := [⟨"/lo", true⟩, ⟨"/hi", true⟩]

/-- The package record during construction (dependencies still empty). -/
def c1Inst : Inst := .mk "pkg" "Pkg" (some "http://x/pkg.tgz") "/none" [] [] [] []

/-- Both candidate prefixes exist on disk (and the package has no further
requirements), so both levels verify. -/
def c1Fs : FS :=
  FS.mk (fun _ => false) (fun q => q == "/lo/tau/pkg/U" || q == "/hi/tau/pkg/U")
    (fun _ => false) (fun _ => false)

/-- C1 counterexample: with two verifying levels the code
(`for storage in reversed(ORDERED_LEVELS)`) accepts the highest-priority
one, while scanning from lowest to highest priority — the claim's words —
would accept the lowest-priority one; the two scans disagree. -/
theorem c1_counterexample :
    resolveInstallDir 1 c1Fs c1Levels c1Inst "tau" "U" = some "/hi/tau/pkg/U" ∧
    resolveInstallDirClaim 1 c1Fs c1Levels c1Inst "tau" "U" = some "/lo/tau/pkg/U" ∧
    resolveInstallDir 1 c1Fs c1Levels c1Inst "tau" "U" ≠
      resolveInstallDirClaim 1 c1Fs c1Levels c1Inst "tau" "U" :=
  ⟨rfl, rfl, by decide⟩

/-- One read-only level, nothing installed. -/
def c1Levels2 : List Storage := [⟨"/ro", false⟩]

theorem c1_witness :
    resolveInstallDir 1 fsNone c1Levels2 c1Inst "tau" "U" = none :=
  (c1_resolution 1 fsNone c1Levels2 (fun s => s) c1Inst "tau" "x" "y").2.2 "U"
    (by decide) (by decide)

end Tau
